import Mathlib

/-!
A shallow Lean embedding of the Summary Information property-set codec of
the `rust-msi` repository (`src/internal/summary.rs` and its support
modules), together with proofs of the specified properties.

Conventions of the embedding:
* a byte is a `Nat` understood modulo 256; writers emit values `< 256` and
  readers mask with `% 256`, so arbitrary inputs are treated bytewise;
* fixed-width machine integers (the 16/32/64-bit fields of the format) are
  modelled by their unsigned raw bit patterns as `Nat`s, reduced modulo the
  width where the code truncates;
* fallible operations return `Option` or `Except MsiError`;
* the byte sink of `write` and the byte source of `read` are `List Nat`.
-/

namespace RustMsi

/-- Errors of the core, mirroring the spec's taxonomy (§7). -/
inductive MsiError where
  | invalidFormat (msg : String)
  | unsupportedValue (msg : String)
  | validationError (msg : String)
  | encodingError (msg : String)
  deriving DecidableEq, Repr

/-- Decidable equality for `Except`, used to evaluate the codec on
concrete inputs. -/
def exceptDecEq {ε α : Type} [DecidableEq ε] [DecidableEq α] :
    DecidableEq (Except ε α)
  | .error e, .error f =>
    if h : e = f then .isTrue (by rw [h])
    else .isFalse (by intro hc; cases hc; exact h rfl)
  | .error _, .ok _ => .isFalse (by intro h; cases h)
  | .ok _, .error _ => .isFalse (by intro h; cases h)
  | .ok a, .ok b =>
    if h : a = b then .isTrue (by rw [h])
    else .isFalse (by intro hc; cases hc; exact h rfl)

instance {ε α : Type} [DecidableEq ε] [DecidableEq α] :
    DecidableEq (Except ε α) := exceptDecEq

/-! ## Little-endian byte-level primitives -/

/-- Serialize a 16-bit little-endian field. -/
def w16 (n : Nat) : List Nat := [n % 256, n / 256 % 256]

/-- Serialize a 32-bit little-endian field. -/
def w32 (n : Nat) : List Nat :=
  [n % 256, n / 256 % 256, n / 65536 % 256, n / 16777216 % 256]

/-- Serialize a 64-bit little-endian field. -/
def w64 (n : Nat) : List Nat := w32 (n % 4294967296) ++ w32 (n / 4294967296)

/-- Read a 16-bit little-endian field from the front of a byte list. -/
def r16 : List Nat → Option Nat
  | a :: b :: _ => some (a % 256 + 256 * (b % 256))
  | _ => none

/-- Read a 32-bit little-endian field from the front of a byte list. -/
def r32 : List Nat → Option Nat
  | a :: b :: c :: d :: _ =>
      some (a % 256 + 256 * (b % 256) + 65536 * (c % 256) +
        16777216 * (d % 256))
  | _ => none

/-- Read a 64-bit little-endian field from the front of a byte list. -/
def r64 : List Nat → Option Nat
  | a :: b :: c :: d :: e :: f :: g :: h :: _ =>
      some (a % 256 + 256 * (b % 256) + 65536 * (c % 256) +
        16777216 * (d % 256) + 4294967296 * (e % 256) +
        1099511627776 * (f % 256) + 281474976710656 * (g % 256) +
        72057594037927936 * (h % 256))
  | _ => none

/-- Read `len` raw bytes (masked to byte range) from the front of a list. -/
def rBytes (len : Nat) (bs : List Nat) : Option (List Nat) :=
  if len ≤ bs.length then some ((bs.take len).map (· % 256)) else none

/-- Absolute-position 16-bit read, for offset-directed parsing. -/
def getU16 (bs : List Nat) (p : Nat) : Option Nat := r16 (bs.drop p)

/-- Absolute-position 32-bit read, for offset-directed parsing. -/
def getU32 (bs : List Nat) (p : Nat) : Option Nat := r32 (bs.drop p)

/-- Absolute-position 64-bit read, for offset-directed parsing. -/
def getU64 (bs : List Nat) (p : Nat) : Option Nat := r64 (bs.drop p)

/-- Absolute-position raw-bytes read. -/
def getBytes (bs : List Nat) (p len : Nat) : Option (List Nat) :=
  rBytes len (bs.drop p)

/-! ## CodePage

Modelled from the spec: the `CodePage` component (module
`internal/codepage.rs`, referenced by `summary.rs` but not among the
provided sources).  Per §3 the identifier `0` is a reserved sentinel
meaning "use UTF-8"; per §4.1 UTF-8 encode/decode always succeeds while
single-byte code pages fail when a character has no representation or on
an invalid byte sequence during decode. -/
inductive CodePage where
  | utf8
  | windows1252
  deriving DecidableEq, Repr

/-- Modelled from the spec: numeric identifier of a code page (§3: 0 is the
reserved sentinel for UTF-8). -/
def CodePage.id : CodePage → Nat
  | .utf8 => 0
  | .windows1252 => 1252

/-- Modelled from the spec: `from_id(id) -> optional CodePage`; unknown ids
yield absent (§4.1). -/
def CodePage.fromId (n : Nat) : Option CodePage :=
  if n = 0 then some .utf8
  else if n = 1252 then some .windows1252
  else none

/-- UTF-8 encoding of one Unicode scalar value (1–4 bytes). -/
def utf8EncodeChar (c : Char) : List Nat :=
  if c.toNat < 128 then [c.toNat]
  else if c.toNat < 2048 then [192 + c.toNat / 64, 128 + c.toNat % 64]
  else if c.toNat < 65536 then
    [224 + c.toNat / 4096, 128 + c.toNat / 64 % 64, 128 + c.toNat % 64]
  else
    [240 + c.toNat / 262144, 128 + c.toNat / 4096 % 64,
      128 + c.toNat / 64 % 64, 128 + c.toNat % 64]

/-- UTF-8 encoding of a character sequence. -/
def utf8Encode : List Char → List Nat
  | [] => []
  | c :: cs => utf8EncodeChar c ++ utf8Encode cs

/-- A UTF-8 continuation byte. -/
def isCont (b : Nat) : Bool := 128 ≤ b && b < 192

/-- One UTF-8 decoding step: from a lead byte and the following bytes,
the scalar value and the number of continuation bytes consumed. -/
def utf8DecodeStep (b : Nat) (bs : List Nat) : Option (Nat × Nat) :=
  if b < 128 then some (b, 0)
  else if b < 192 then none
  else if b < 224 then
    match bs with
    | b1 :: _ =>
        if isCont b1 then some ((b - 192) * 64 + (b1 - 128), 1) else none
    | [] => none
  else if b < 240 then
    match bs with
    | b1 :: b2 :: _ =>
        if isCont b1 && isCont b2 then
          some ((b - 224) * 4096 + (b1 - 128) * 64 + (b2 - 128), 2)
        else none
    | _ => none
  else if b < 248 then
    match bs with
    | b1 :: b2 :: b3 :: _ =>
        if isCont b1 && isCont b2 && isCont b3 then
          some ((b - 240) * 262144 + (b1 - 128) * 4096 + (b2 - 128) * 64 +
            (b3 - 128), 3)
        else none
    | _ => none
  else none

/-- Fuel-driven UTF-8 decoding worker; the fuel only bounds recursion
depth and is immaterial once it is at least the input length. -/
def utf8DecodeF : Nat → List Nat → Option (List Char)
  | _, [] => some []
  | 0, _ :: _ => none
  | fuel + 1, b :: bs =>
    match utf8DecodeStep b bs with
    | none => none
    | some (n, k) =>
      if h : Nat.isValidChar n then
        (utf8DecodeF fuel (bs.drop k)).map fun cs => Char.ofNatAux n h :: cs
      else none

/-- UTF-8 decoding; fails on structurally invalid sequences and on scalar
values that are not valid Unicode scalars (surrogates, out of range). -/
def utf8Decode (bs : List Nat) : Option (List Char) :=
  utf8DecodeF bs.length bs

/-- Modelled from the spec: the Windows-1252 single-byte code page as a
static data asset (§9: large lookup tables are data, not control logic).
Bytes 0–127 coincide with the scalar value, bytes 160–255 coincide with
the Latin-1 scalar of the same number, and the 27 defined bytes in the
128–159 range map to these characters. -/
def cp1252Table : List (Char × Nat) :=
  [('\u20AC', 128), ('\u201A', 130), ('\u0192', 131), ('\u201E', 132),
   ('\u2026', 133), ('\u2020', 134), ('\u2021', 135), ('\u02C6', 136),
   ('\u2030', 137), ('\u0160', 138), ('\u2039', 139), ('\u0152', 140),
   ('\u017D', 142), ('\u2018', 145), ('\u2019', 146), ('\u201C', 147),
   ('\u201D', 148), ('\u2022', 149), ('\u2013', 150), ('\u2014', 151),
   ('\u02DC', 152), ('\u2122', 153), ('\u0161', 154), ('\u203A', 155),
   ('\u0153', 156), ('\u017E', 158), ('\u0178', 159)]

/-- Windows-1252 encoding of one character; absent when the character has
no representation in the code page. -/
def cp1252EncodeChar (c : Char) : Option Nat :=
  if c.toNat < 128 then some c.toNat
  else if 160 ≤ c.toNat ∧ c.toNat ≤ 255 then some c.toNat
  else (cp1252Table.find? fun p => p.1 == c).map Prod.snd

/-- Windows-1252 decoding of one byte; absent for the five undefined
bytes (129, 141, 143, 144, 157) and for out-of-range input. -/
def cp1252DecodeByte (b : Nat) : Option Char :=
  if h : b < 128 then some (Char.ofNatAux b (Or.inl (by omega)))
  else if h2 : 160 ≤ b ∧ b ≤ 255 then
    some (Char.ofNatAux b (Or.inl (by omega)))
  else (cp1252Table.find? fun p => p.2 == b).map Prod.fst

/-- Windows-1252 encoding of a character sequence. -/
def cp1252Encode : List Char → Option (List Nat)
  | [] => some []
  | c :: cs =>
    match cp1252EncodeChar c, cp1252Encode cs with
    | some b, some bs => some (b :: bs)
    | _, _ => none

/-- Windows-1252 decoding of a byte sequence. -/
def cp1252Decode : List Nat → Option (List Char)
  | [] => some []
  | b :: bs =>
    match cp1252DecodeByte b, cp1252Decode bs with
    | some c, some cs => some (c :: cs)
    | _, _ => none

/-- Modelled from the spec: `CodePage.encode` (§4.1); UTF-8 always
succeeds, Windows-1252 fails when a character has no representation. -/
def CodePage.encodeChars : CodePage → List Char → Option (List Nat)
  | .utf8, cs => some (utf8Encode cs)
  | .windows1252, cs => cp1252Encode cs

/-- Modelled from the spec: `CodePage.decode` (§4.1); fails on an invalid
byte sequence. -/
def CodePage.decodeChars : CodePage → List Nat → Option (List Char)
  | .utf8, bs => utf8Decode bs
  | .windows1252, bs => cp1252Decode bs

/-! ## PropertySet

Modelled from the spec: the `PropertySet` component (module
`internal/propset.rs`, referenced by `summary.rs` but not among the
provided sources), following §3 (data model), §4.4 (operations) and §6
(binary layout). -/

/-- The tagged union of value types this format needs (§3, §9: an explicit
sum type).  The 16/32-bit integer variants and the 64-bit tick count carry
their unsigned raw bit pattern. -/
inductive PropertyValue where
  | i2 (raw : Nat)
  | i4 (raw : Nat)
  | lpstr (s : String)
  | filetime (ticks : Nat)
  deriving DecidableEq, Repr

/-- Operating-system tag (§6: `0`/`1` are two other platform families,
`2` is the target platform family; `summary.rs` passes
`OperatingSystem::Win32`). -/
inductive OperatingSystem where
  | family0
  | family1
  | win32
  deriving DecidableEq, Repr

/-- Numeric tag of an operating system (§6). -/
def OperatingSystem.toNat : OperatingSystem → Nat
  | .family0 => 0
  | .family1 => 1
  | .win32 => 2

/-- One structured property set: OS tag, OS version, 16-byte format
identifier, and an ordered mapping from property id to value (§3). -/
structure PropertySet where
  os : Nat
  osVersion : Nat
  fmtid : List Nat
  properties : List (Nat × PropertyValue)
  deriving DecidableEq, Repr

/-- Modelled from the spec: `PropertySet::new(os, os_version,
format_identifier)` with an empty property map (§4.4). -/
def PropertySet.new (os : OperatingSystem) (osVersion : Nat)
    (fmtid : List Nat) : PropertySet :=
  ⟨os.toNat, osVersion, fmtid, []⟩

/-- The `format_identifier()` accessor used by `SummaryInfo::read`. -/
def PropertySet.formatIdentifier (ps : PropertySet) : List Nat := ps.fmtid

/-- Update an association list in place, appending when the key is new. -/
def setPairs (id : Nat) (v : PropertyValue) :
    List (Nat × PropertyValue) → List (Nat × PropertyValue)
  | [] => [(id, v)]
  | p :: tl => if p.1 = id then (id, v) :: tl else p :: setPairs id v tl

/-- Modelled from the spec: `get(id)`, a plain map operation (§4.4). -/
def PropertySet.get (ps : PropertySet) (id : Nat) : Option PropertyValue :=
  (ps.properties.find? fun p => p.1 == id).map Prod.snd

/-- Modelled from the spec: `set(id, value)`, a plain map operation
(§4.4). -/
def PropertySet.set (ps : PropertySet) (id : Nat) (v : PropertyValue) :
    PropertySet :=
  { ps with properties := setPairs id v ps.properties }

/-- Modelled from the spec: `remove(id)`, a plain map operation (§4.4). -/
def PropertySet.remove (ps : PropertySet) (id : Nat) : PropertySet :=
  { ps with properties := ps.properties.filter fun p => !(p.1 == id) }

/-- Bytes of padding needed after `n` bytes to reach a 4-byte boundary. -/
def padLen (n : Nat) : Nat := (4 - n % 4) % 4

/-- The active codepage after serializing or decoding one property:
property id 1 is itself a code-page identifier governing the text
properties of the same set (§3, §4.4). -/
def nextCp (cp : CodePage) (id : Nat) (v : PropertyValue) : CodePage :=
  if id = 1 then
    match v with
    | .i2 raw => (CodePage.fromId raw).getD cp
    | _ => cp
  else cp

/-- Serialize one property value: 4-byte type tag plus payload, padded to
a 4-byte boundary (§6).  Text is encoded with the active codepage and
carries a 4-byte length-including-terminator. -/
def serializeValue (cp : CodePage) :
    PropertyValue → Except MsiError (List Nat)
  | .i2 raw => .ok (w32 2 ++ w32 (raw % 65536))
  | .i4 raw => .ok (w32 3 ++ w32 raw)
  | .lpstr s =>
    match cp.encodeChars s.data with
    | some bytes =>
        .ok (w32 30 ++ w32 (bytes.length + 1) ++ bytes ++ [0] ++
          List.replicate (padLen (bytes.length + 1)) 0)
    | none => .error (.encodingError "string not representable in codepage")
  | .filetime t => .ok (w32 64 ++ w64 t)

/-- Serialize every property's value in map order, threading the active
codepage (§4.3 write). -/
def serializeProps (cp : CodePage) :
    List (Nat × PropertyValue) → Except MsiError (List (Nat × List Nat))
  | [] => .ok []
  | (id, v) :: tl =>
    match serializeValue cp v with
    | .error e => .error e
    | .ok bytes =>
      match serializeProps (nextCp cp id v) tl with
      | .error e => .error e
      | .ok rest => .ok ((id, bytes) :: rest)

/-- Consecutive layout of the serialized values: offset directory entries
in map order and the value blob (§4.4 write). -/
def layout (start : Nat) :
    List (Nat × List Nat) → List (Nat × Nat) × List Nat
  | [] => ([], [])
  | (id, bytes) :: tl =>
    ((id, start) :: (layout (start + bytes.length) tl).1,
      bytes ++ (layout (start + bytes.length) tl).2)

/-- Serialized form of the offset directory. -/
def dirBytes : List (Nat × Nat) → List Nat
  | [] => []
  | (id, off) :: tl => w32 id ++ w32 off ++ dirBytes tl

/-- Modelled from the spec: `PropertySet::write` (§4.4, §6).  Serializes
every property, lays the values out consecutively with 4-byte alignment,
builds the offset directory in the same order, and returns header +
directory + value blob as one completed in-memory buffer. -/
def assemble (osVersion os : Nat) (fmtid : List Nat)
    (sectionSize n : Nat) (dir : List (Nat × Nat)) (blob : List Nat) :
    List Nat :=
  w16 65534 ++ (w16 0 ++ (w16 osVersion ++ (w16 os ++
    (List.replicate 16 0 ++ (w32 1 ++ (fmtid ++ (w32 48 ++
      (w32 sectionSize ++ (w32 n ++ (dirBytes dir ++ blob))))))))))

def PropertySet.write (ps : PropertySet) : Except MsiError (List Nat) :=
  match serializeProps .utf8 ps.properties with
  | .error e => .error e
  | .ok parts =>
    .ok (assemble ps.osVersion ps.os ps.fmtid
      (8 + 8 * ps.properties.length +
        (layout (8 + 8 * ps.properties.length) parts).2.length)
      ps.properties.length
      (layout (8 + 8 * ps.properties.length) parts).1
      (layout (8 + 8 * ps.properties.length) parts).2)

/-- Parse one property value at an absolute position, returning the value
and its intrinsic (unpadded) byte length (§6). -/
def parseValueAt (all : List Nat) (cp : CodePage) (pos : Nat) :
    Except MsiError (PropertyValue × Nat) :=
  match getU32 all pos with
  | none => .error (.invalidFormat "truncated property value")
  | some tag =>
    if tag = 2 then
      match getU32 all (pos + 4) with
      | some raw => .ok (.i2 (raw % 65536), 8)
      | none => .error (.invalidFormat "truncated property value")
    else if tag = 3 then
      match getU32 all (pos + 4) with
      | some raw => .ok (.i4 raw, 8)
      | none => .error (.invalidFormat "truncated property value")
    else if tag = 30 then
      match getU32 all (pos + 4) with
      | some len =>
        match getBytes all (pos + 8) len with
        | some bytes =>
          if len = 0 then .error (.invalidFormat "empty string property")
          else
            match cp.decodeChars (bytes.take (len - 1)) with
            | some cs => .ok (.lpstr (String.mk cs), 8 + len)
            | none => .error (.encodingError "invalid bytes for codepage")
        | none => .error (.invalidFormat "truncated property value")
      | none => .error (.invalidFormat "truncated property value")
    else if tag = 64 then
      match getU64 all (pos + 4) with
      | some t => .ok (.filetime t, 12)
      | none => .error (.invalidFormat "truncated property value")
    else .error (.invalidFormat "unrecognized value type tag")

/-- Parse `n` id/offset directory pairs starting at `pos` (§6). -/
def parseDir (all : List Nat) : Nat → Nat →
    Except MsiError (List (Nat × Nat))
  | 0, _ => .ok []
  | n + 1, pos =>
    match getU32 all pos, getU32 all (pos + 4) with
    | some id, some off =>
      match parseDir all n (pos + 8) with
      | .error e => .error e
      | .ok rest => .ok ((id, off) :: rest)
    | _, _ => .error (.invalidFormat "truncated property directory")

/-- Decode each directory entry's value at its offset, threading the
active codepage (property id 1, once decoded, governs later text) and
rejecting entries pointing outside the declared section bounds (§4.4). -/
def decodeEntries (all : List Nat) (base size : Nat) (cp : CodePage) :
    List (Nat × Nat) → Except MsiError (List (Nat × PropertyValue))
  | [] => .ok []
  | (id, off) :: tl =>
    match parseValueAt all cp (base + off) with
    | .error e => .error e
    | .ok (v, len) =>
      if off + len ≤ size then
        match decodeEntries all base size (nextCp cp id v) tl with
        | .error e => .error e
        | .ok rest => .ok ((id, v) :: rest)
      else .error (.invalidFormat "directory entry out of section bounds")

/-- Modelled from the spec: `PropertySet::read` (§4.4, §6).  All-or-
nothing: any malformed input yields an error and no property set. -/
def PropertySet.parse (input : List Nat) : Except MsiError PropertySet :=
  match getU16 input 0 with
  | none => .error (.invalidFormat "truncated header")
  | some bom =>
    if bom ≠ 65534 then .error (.invalidFormat "wrong byte-order marker")
    else
      match getU16 input 2 with
      | none => .error (.invalidFormat "truncated header")
      | some ver =>
        if ver ≠ 0 then .error (.invalidFormat "unsupported format version")
        else
          match getU16 input 4, getU16 input 6 with
          | some osVersion, some os =>
            match getBytes input 8 16 with
            | none => .error (.invalidFormat "truncated header")
            | some _clsid =>
              match getU32 input 24 with
              | none => .error (.invalidFormat "truncated header")
              | some cnt =>
                if cnt ≠ 1 then
                  .error (.invalidFormat "wrong number of format id sets")
                else
                  match getBytes input 28 16, getU32 input 44 with
                  | some fmtid, some so =>
                    (match getU32 input so, getU32 input (so + 4) with
                    | some size, some n =>
                      match parseDir input n (so + 8) with
                      | .error e => .error e
                      | .ok dir =>
                        if (dir.map Prod.fst).Nodup then
                          match decodeEntries input so size .utf8 dir with
                          | .error e => .error e
                          | .ok props =>
                              .ok ⟨os, osVersion, fmtid, props⟩
                        else .error (.invalidFormat "duplicate property ids")
                    | _, _ => .error (.invalidFormat "truncated section"))
                  | _, _ => .error (.invalidFormat "truncated header")
          | _, _ => .error (.invalidFormat "truncated header")

/-- Well-formed property values: raw integers fit their field, text is
within the format's 32-bit length budget. -/
def PropertyValue.wf : PropertyValue → Prop
  | .i2 raw => raw < 65536
  | .i4 raw => raw < 4294967296
  | .lpstr s => s.data.length < 1000000000
  | .filetime t => t < 18446744073709551616

instance : DecidablePred PropertyValue.wf := by
  intro v
  cases v <;> simp only [PropertyValue.wf] <;> infer_instance

/-- Well-formedness of a property set state: unique in-range ids,
well-formed values, a 16-byte format identifier, in-range OS fields. -/
def PropertySet.wf (ps : PropertySet) : Prop :=
  (ps.properties.map Prod.fst).Nodup ∧
  (∀ p ∈ ps.properties, p.1 < 4294967296 ∧ PropertyValue.wf p.2) ∧
  ps.fmtid.length = 16 ∧ (∀ b ∈ ps.fmtid, b < 256) ∧
  ps.os < 65536 ∧ ps.osVersion < 65536

instance (ps : PropertySet) : Decidable ps.wf := by
  rw [PropertySet.wf]
  infer_instance

/-! ## Decimal and hexadecimal text helpers -/

/-- Fuel-driven decimal rendering worker (most significant digit first);
the fuel is immaterial once it exceeds the value. -/
def renderNatF : Nat → Nat → List Char
  | 0, _ => []
  | fuel + 1, n =>
    if n < 10 then [Nat.digitChar n]
    else renderNatF fuel (n / 10) ++ [Nat.digitChar (n % 10)]

/-- Decimal rendering of a natural number. -/
def renderNat (n : Nat) : List Char := renderNatF (n + 1) n

/-- Value of a decimal digit character. -/
def digitVal (c : Char) : Option Nat :=
  if 48 ≤ c.toNat ∧ c.toNat ≤ 57 then some (c.toNat - 48) else none

/-- Accumulating decimal parser. -/
def parseNatAux : Nat → List Char → Option Nat
  | acc, [] => some acc
  | acc, c :: cs => (digitVal c).bind fun d => parseNatAux (acc * 10 + d) cs

/-- Parse a nonempty all-digit character sequence. -/
def parseNatDigits : List Char → Option Nat
  | [] => none
  | c :: cs => parseNatAux 0 (c :: cs)

/-- Left brace character of the braced identifier text form. -/
def lbrace : Char := Char.ofNat 123

/-- Right brace character of the braced identifier text form. -/
def rbrace : Char := Char.ofNat 125

/-- Upper-case hexadecimal digit character. -/
def hexChar (d : Nat) : Char :=
  if d < 10 then Nat.digitChar d
  else if d = 10 then 'A'
  else if d = 11 then 'B'
  else if d = 12 then 'C'
  else if d = 13 then 'D'
  else if d = 14 then 'E'
  else 'F'

/-- Value of a hexadecimal digit character, either case. -/
def hexVal (c : Char) : Option Nat :=
  if 48 ≤ c.toNat ∧ c.toNat ≤ 57 then some (c.toNat - 48)
  else if 65 ≤ c.toNat ∧ c.toNat ≤ 70 then some (c.toNat - 55)
  else if 97 ≤ c.toNat ∧ c.toNat ≤ 102 then some (c.toNat - 87)
  else none

/-- Fixed-width upper-case hexadecimal rendering, most significant digit
first. -/
def renderHexM : Nat → Nat → List Char
  | 0, _ => []
  | w + 1, n => hexChar (n / 16 ^ w % 16) :: renderHexM w n

/-- Fixed-width accumulating hexadecimal parser, returning the value and
the remaining characters. -/
def parseHexAux : Nat → Nat → List Char → Option (Nat × List Char)
  | acc, 0, cs => some (acc, cs)
  | _, _ + 1, [] => none
  | acc, w + 1, c :: cs =>
    (hexVal c).bind fun d => parseHexAux (acc * 16 + d) w cs

/-- The installer revision identifier, §4.5: logically a UUID; five
fields of 32, 16, 16, 16 and 48 bits. -/
structure Uuid where
  timeLow : Nat
  timeMid : Nat
  timeHi : Nat
  clockSeq : Nat
  node : Nat
  deriving DecidableEq, Repr

/-- The identifier's fields all fit their widths. -/
def Uuid.wf (u : Uuid) : Prop :=
  u.timeLow < 4294967296 ∧ u.timeMid < 65536 ∧ u.timeHi < 65536 ∧
    u.clockSeq < 65536 ∧ u.node < 281474976710656

instance (u : Uuid) : Decidable u.wf := by
  rw [Uuid.wf]
  infer_instance

/-- Modelled from the spec: the braced, upper-case hexadecimal text form
of an identifier (§4.5 revision id). -/
def renderUuid (u : Uuid) : String :=
  String.mk (lbrace :: (renderHexM 8 u.timeLow ++ '-' ::
    (renderHexM 4 u.timeMid ++ '-' :: (renderHexM 4 u.timeHi ++ '-' ::
      (renderHexM 4 u.clockSeq ++ '-' ::
        (renderHexM 12 u.node ++ [rbrace]))))))

/-- Modelled from the spec: parser of the braced identifier text form;
absent on any malformed text (§4.5). -/
def parseUuid (s : String) : Option Uuid :=
  match s.data with
  | [] => none
  | c0 :: rest =>
    if c0 = lbrace then
      match parseHexAux 0 8 rest with
      | some (d1, c1 :: r1) =>
        if c1 = '-' then
          match parseHexAux 0 4 r1 with
          | some (d2, c2 :: r2) =>
            if c2 = '-' then
              match parseHexAux 0 4 r2 with
              | some (d3, c3 :: r3) =>
                if c3 = '-' then
                  match parseHexAux 0 4 r3 with
                  | some (d4, c4 :: r4) =>
                    if c4 = '-' then
                      match parseHexAux 0 12 r4 with
                      | some (d5, [c5]) =>
                        if c5 = rbrace then some ⟨d1, d2, d3, d4, d5⟩
                        else none
                      | _ => none
                    else none
                  | _ => none
                else none
              | _ => none
            else none
          | _ => none
        else none
      | _ => none
    else none

/-! ## Template grammar (§4.5)

Modelled from the spec: the installation-template text is the
architecture token, a semicolon, then a comma-separated language-code
list; empty components are omitted. -/

/-- Split at the first semicolon: the text before it, and the text after
it when one is present. -/
def breakSemi : List Char → List Char × Option (List Char)
  | [] => ([], none)
  | c :: cs =>
    if c = ';' then ([], some cs)
    else (c :: (breakSemi cs).1, (breakSemi cs).2)

/-- Split at every comma. -/
def splitComma : List Char → List (List Char)
  | [] => [[]]
  | c :: cs =>
    if c = ',' then [] :: splitComma cs
    else
      match splitComma cs with
      | [] => [[c]]
      | g :: gs => (c :: g) :: gs

/-- Parse a comma-separated language-code list, dropping malformed
entries. -/
def parseLangCodes (cs : List Char) : List Nat :=
  (splitComma cs).filterMap parseNatDigits

/-- The architecture component of a template text: the (nonempty) part
before the semicolon. -/
def templateArch (t : List Char) : Option (List Char) :=
  if (breakSemi t).1 = [] then none else some (breakSemi t).1

/-- The language-code component of a template text: the part after the
semicolon. -/
def templateLangs (t : List Char) : List Nat :=
  match (breakSemi t).2 with
  | some rest => parseLangCodes rest
  | none => []

/-- Comma-joined decimal renderings of the language codes. -/
def renderCodes : List Nat → List Char
  | [] => []
  | [n] => renderNat n
  | n :: m :: rest => renderNat n ++ ',' :: renderCodes (m :: rest)

/-- Re-serialize the combined template text; empty components are
omitted. -/
def renderTemplate (arch : Option (List Char)) (langs : List Nat) :
    List Char :=
  match arch, langs with
  | none, [] => []
  | some a, [] => a
  | none, _ :: _ => ';' :: renderCodes langs
  | some a, _ :: _ => a ++ ';' :: renderCodes langs

/-! ## SummaryInfo (`src/internal/summary.rs`) -/

/-- The fixed 16-byte format-identifier constant of `summary.rs` (lines
20–21): the bytes
`e0 85 9f f2 f9 4f 68 10 ab 91 08 00 2b 27 b3 d9`. -/
def FMTID : List Nat :=
  [224, 133, 159, 242, 249, 79, 104, 16, 171, 145, 8, 0, 43, 39, 179, 217]

/-- The summary-information GUID `F29F85E0-4FF9-1068-AB91-08002B27B3D9`
encoded as documented: first three fields little-endian, last two
big-endian (spec §3 SummaryInfo; `summary.rs` comment lines 12–19). -/
def guidMixedEndian (f1 f2 f3 f4 f5 : Nat) : List Nat :=
  w32 f1 ++ w16 f2 ++ w16 f3 ++
    [f4 / 256 % 256, f4 % 256] ++
    [f5 / 1099511627776 % 256, f5 / 4294967296 % 256,
      f5 / 16777216 % 256, f5 / 65536 % 256, f5 / 256 % 256, f5 % 256]

/-- The 17 logical Summary Information fields, with the discriminants of
`summary.rs` lines 23–42 (`Codepage = 1`, the rest sequential). -/
inductive SummaryInfoField where
  | codepage
  | title
  | subject
  | author
  | keywords
  | comments
  | template
  | lastSavedBy
  | revisionNumber
  | lastPrinted
  | createDateTime
  | lastSaveDateTime
  | pageCount
  | wordCount
  | characterCount
  | creatingApplication
  | security
  deriving DecidableEq, Repr

/-- Numeric property id of a field (the `repr(u32)` discriminant of
`SummaryInfoField`, starting at `Codepage = 1`). -/
def SummaryInfoField.pid : SummaryInfoField → Nat
  | .codepage => 1
  | .title => 2
  | .subject => 3
  | .author => 4
  | .keywords => 5
  | .comments => 6
  | .template => 7
  | .lastSavedBy => 8
  | .revisionNumber => 9
  | .lastPrinted => 10
  | .createDateTime => 11
  | .lastSaveDateTime => 12
  | .pageCount => 13
  | .wordCount => 14
  | .characterCount => 15
  | .creatingApplication => 16
  | .security => 17

/-- The architectures of `summary.rs` lines 44–50. -/
inductive Architecture where
  | x64
  | intel
  | intel64
  | arm
  | arm64
  deriving DecidableEq, Repr

/-- The template token of an architecture (the platform tokens of the
documented template grammar; the test uses `"x64"` and `"Intel"`). -/
def Architecture.token : Architecture → String
  | .x64 => "x64"
  | .intel => "Intel"
  | .intel64 => "Intel64"
  | .arm => "Arm"
  | .arm64 => "Arm64"

/-- Modelled from the spec: a language wraps a 16-bit locale code, and
equality is by code (§3, §4.2).  The tag table is not needed here. -/
structure Language where
  code : Nat
  deriving DecidableEq, Repr

/-- Modelled from the spec: `Language.from_code` (§4.2). -/
def Language.fromCode (n : Nat) : Language := ⟨n⟩

/-- Summary information about an MSI package: a typed view over a
`PropertySet` bound to the fixed format identifier (`summary.rs` line
133 constructs `SummaryInfo { properties }`). -/
structure SummaryInfo where
  properties : PropertySet
  deriving DecidableEq, Repr

namespace SummaryInfo

/-- Modelled from the spec: `set_codepage` stores the code-page id as the
16-bit property 1 (§3: property id 1 is itself a code-page identifier). -/
def set_codepage (si : SummaryInfo) (cp : CodePage) : SummaryInfo :=
  ⟨si.properties.set 1 (.i2 cp.id)⟩

/-- `SummaryInfo::new` (`summary.rs` lines 131–136): an empty property
set for `(Win32, 10, FMTID)`, then `set_codepage(Utf8)`. -/
def new : SummaryInfo :=
  set_codepage ⟨PropertySet.new .win32 10 FMTID⟩ .utf8

/-- `SummaryInfo::read` (`summary.rs` lines 138–144): parse the property
set, then require the format identifier to equal `FMTID`. -/
def read (input : List Nat) : Except MsiError SummaryInfo :=
  match PropertySet.parse input with
  | .error e => .error e
  | .ok properties =>
    if properties.formatIdentifier ≠ FMTID then
      .error (.invalidFormat "Property set has wrong format identifier")
    else .ok ⟨properties⟩

/-- The `Into<PropertySet>` conversion of `summary.rs` lines 151–155
(left `todo!()` in the source).  Modelled from the spec: a SummaryInfo is
a typed view whose mutations already live in the wrapped property map
(§2 data flow, §3 SummaryInfo), so the conversion yields the wrapped
property set. -/
def toPropertySet (si : SummaryInfo) : PropertySet := si.properties

/-- `SummaryInfo::write` (`summary.rs` lines 146–149): convert into a
`PropertySet` and write it. -/
def write (si : SummaryInfo) : Except MsiError (List Nat) :=
  si.toPropertySet.write

/-- Modelled from the spec: write through the caller's byte sink; the
completed in-memory buffer is appended to the sink in one step (§4.4
write, §5). -/
def writeToSink (si : SummaryInfo) (sink : List Nat) :
    Except MsiError (List Nat) :=
  match si.write with
  | .error e => .error e
  | .ok buf => .ok (sink ++ buf)

/-- Text stored under a property id, absent when the property is not
present or not text. -/
def getStrProp (si : SummaryInfo) (id : Nat) : Option String :=
  match si.properties.get id with
  | some (.lpstr s) => some s
  | _ => none

/-- Modelled from the spec: the string-field setters store the text
under the field's property id (§4.5). -/
def setStrProp (si : SummaryInfo) (id : Nat) (s : String) : SummaryInfo :=
  ⟨si.properties.set id (.lpstr s)⟩

/-- Modelled from the spec: a clearer removes the underlying property id
(§4.5). -/
def clearProp (si : SummaryInfo) (id : Nat) : SummaryInfo :=
  ⟨si.properties.remove id⟩

/-- Modelled from the spec: the codepage getter (§4.5); absent when
property 1 is missing, malformed, or holds an unknown id. -/
def codepage (si : SummaryInfo) : Option CodePage :=
  match si.properties.get 1 with
  | some (.i2 raw) => CodePage.fromId raw
  | _ => none

def title (si : SummaryInfo) : Option String := si.getStrProp 2

def set_title (si : SummaryInfo) (s : String) : SummaryInfo :=
  si.setStrProp 2 s

def subject (si : SummaryInfo) : Option String := si.getStrProp 3

def set_subject (si : SummaryInfo) (s : String) : SummaryInfo :=
  si.setStrProp 3 s

def author (si : SummaryInfo) : Option String := si.getStrProp 4

def set_author (si : SummaryInfo) (s : String) : SummaryInfo :=
  si.setStrProp 4 s

def keywords (si : SummaryInfo) : Option String := si.getStrProp 5

def set_keywords (si : SummaryInfo) (s : String) : SummaryInfo :=
  si.setStrProp 5 s

def comments (si : SummaryInfo) : Option String := si.getStrProp 6

def set_comments (si : SummaryInfo) (s : String) : SummaryInfo :=
  si.setStrProp 6 s

def last_saved_by (si : SummaryInfo) : Option String := si.getStrProp 8

def set_last_saved_by (si : SummaryInfo) (s : String) : SummaryInfo :=
  si.setStrProp 8 s

def creating_application (si : SummaryInfo) : Option String :=
  si.getStrProp 16

def set_creating_application (si : SummaryInfo) (s : String) :
    SummaryInfo :=
  si.setStrProp 16 s

/-- Modelled from the spec: the revision-id getter parses the stored
braced text back, absent (not an error) when it is not well formed
(§4.5). -/
def uuid (si : SummaryInfo) : Option Uuid :=
  match si.getStrProp 9 with
  | some s => parseUuid s
  | none => none

/-- Modelled from the spec: the revision-id setter renders exactly the
braced, upper-case hexadecimal text form (§4.5). -/
def set_uuid (si : SummaryInfo) (u : Uuid) : SummaryInfo :=
  si.setStrProp 9 (renderUuid u)

/-- Tick count stored under a time property id. -/
def getTimeProp (si : SummaryInfo) (id : Nat) : Option Nat :=
  match si.properties.get id with
  | some (.filetime t) => some t
  | _ => none

/-- Modelled from the spec: time setters store the 64-bit tick count
(§3 Timestamp, §6 type tag 64). -/
def setTimeProp (si : SummaryInfo) (id : Nat) (t : Nat) : SummaryInfo :=
  ⟨si.properties.set id (.filetime (t % 18446744073709551616))⟩

def last_printed (si : SummaryInfo) : Option Nat := si.getTimeProp 10

def set_last_printed (si : SummaryInfo) (t : Nat) : SummaryInfo :=
  si.setTimeProp 10 t

def creation_time (si : SummaryInfo) : Option Nat := si.getTimeProp 11

def set_creation_time (si : SummaryInfo) (t : Nat) : SummaryInfo :=
  si.setTimeProp 11 t

def last_save_time (si : SummaryInfo) : Option Nat := si.getTimeProp 12

def set_last_save_time (si : SummaryInfo) (t : Nat) : SummaryInfo :=
  si.setTimeProp 12 t

def page_count (si : SummaryInfo) : Option Nat :=
  match si.properties.get 13 with
  | some (.i4 raw) => some raw
  | _ => none

def set_page_count (si : SummaryInfo) (v : Nat) : SummaryInfo :=
  ⟨si.properties.set 13 (.i4 (v % 4294967296))⟩

def word_count (si : SummaryInfo) : Option Nat :=
  match si.properties.get 14 with
  | some (.i2 raw) => some raw
  | _ => none

/-- Modelled from the spec: the word count is a packed 16-bit field and
bits this core does not interpret are stored verbatim (§4.5). -/
def set_word_count (si : SummaryInfo) (v : Nat) : SummaryInfo :=
  ⟨si.properties.set 14 (.i2 (v % 65536))⟩

def security (si : SummaryInfo) : Option Nat :=
  match si.properties.get 17 with
  | some (.i4 raw) => some raw
  | _ => none

/-- Modelled from the spec: the security setter validates its input
against the documented discrete set (§7 ValidationError). -/
def set_security (si : SummaryInfo) (v : Nat) :
    Except MsiError SummaryInfo :=
  if v = 0 ∨ v = 2 ∨ v = 4 then
    .ok ⟨si.properties.set 17 (.i4 v)⟩
  else .error (.validationError "unsupported security level")

/-- The current template text, empty when property 7 is absent or not
text. -/
def currentTemplate (si : SummaryInfo) : List Char :=
  match si.properties.get 7 with
  | some (.lpstr s) => s.data
  | _ => []

/-- Modelled from the spec: `set_arch` reads the current template,
replaces only the architecture component, and re-serializes (§4.5). -/
def set_arch (si : SummaryInfo) (a : Architecture) : SummaryInfo :=
  ⟨si.properties.set 7 (.lpstr (String.mk
    (renderTemplate (some a.token.data)
      (templateLangs si.currentTemplate))))⟩

/-- Modelled from the spec: `set_languages` reads the current template,
replaces only the language-code list, and re-serializes (§4.5). -/
def set_languages (si : SummaryInfo) (ls : List Language) : SummaryInfo :=
  ⟨si.properties.set 7 (.lpstr (String.mk
    (renderTemplate (templateArch si.currentTemplate)
      (ls.map Language.code))))⟩

/-- The architecture component of the stored template. -/
def arch (si : SummaryInfo) : Option String :=
  (templateArch si.currentTemplate).map String.mk

/-- The language list of the stored template. -/
def languages (si : SummaryInfo) : List Language :=
  (templateLangs si.currentTemplate).map Language.fromCode

/-- Modelled from the spec: clearing the architecture component is a
no-op when it is already absent, removes the property when nothing
remains, and otherwise re-serializes the languages alone (§4.5). -/
def clear_arch (si : SummaryInfo) : SummaryInfo :=
  match templateArch si.currentTemplate with
  | none => si
  | some _ =>
    match templateLangs si.currentTemplate with
    | [] => ⟨si.properties.remove 7⟩
    | ls => ⟨si.properties.set 7 (.lpstr (String.mk
        (renderTemplate none ls)))⟩

/-- Modelled from the spec: clearing the language list, symmetric to
`clear_arch` (§4.5). -/
def clear_languages (si : SummaryInfo) : SummaryInfo :=
  match templateLangs si.currentTemplate with
  | [] => si
  | _ =>
    match templateArch si.currentTemplate with
    | none => ⟨si.properties.remove 7⟩
    | some a => ⟨si.properties.set 7 (.lpstr (String.mk
        (renderTemplate (some a) [])))⟩

/-- Modelled from the spec: every logical field's clearer removes the
underlying property id (§4.5). -/
def clearField (si : SummaryInfo) (f : SummaryInfoField) : SummaryInfo :=
  si.clearProp f.pid

def clear_codepage (si : SummaryInfo) : SummaryInfo := si.clearProp 1

def clear_title (si : SummaryInfo) : SummaryInfo := si.clearProp 2

def clear_subject (si : SummaryInfo) : SummaryInfo := si.clearProp 3

def clear_author (si : SummaryInfo) : SummaryInfo := si.clearProp 4

def clear_keywords (si : SummaryInfo) : SummaryInfo := si.clearProp 5

def clear_comments (si : SummaryInfo) : SummaryInfo := si.clearProp 6

def clear_template (si : SummaryInfo) : SummaryInfo := si.clearProp 7

def clear_last_saved_by (si : SummaryInfo) : SummaryInfo := si.clearProp 8

def clear_uuid (si : SummaryInfo) : SummaryInfo := si.clearProp 9

def clear_last_printed (si : SummaryInfo) : SummaryInfo := si.clearProp 10

def clear_creation_time (si : SummaryInfo) : SummaryInfo :=
  si.clearProp 11

def clear_last_save_time (si : SummaryInfo) : SummaryInfo :=
  si.clearProp 12

def clear_page_count (si : SummaryInfo) : SummaryInfo := si.clearProp 13

def clear_word_count (si : SummaryInfo) : SummaryInfo := si.clearProp 14

def clear_creating_application (si : SummaryInfo) : SummaryInfo :=
  si.clearProp 16

def clear_security (si : SummaryInfo) : SummaryInfo := si.clearProp 17

end SummaryInfo

/-! ## Mutation operations and reachable states -/

/-- The numeric part of value well-formedness: raw values fit their
fixed-width fields.  Every setter establishes this by construction. -/
def PropertyValue.wfNum : PropertyValue → Prop
  | .i2 raw => raw < 65536
  | .i4 raw => raw < 4294967296
  | .lpstr _ => True
  | .filetime t => t < 18446744073709551616

instance : DecidablePred PropertyValue.wfNum := by
  intro v
  cases v <;> simp only [PropertyValue.wfNum] <;> infer_instance

/-- The text part of value well-formedness: stored text stays within the
format's 32-bit length budget. -/
def PropertyValue.textOk : PropertyValue → Prop
  | .lpstr s => s.data.length < 1000000000
  | _ => True

instance : DecidablePred PropertyValue.textOk := by
  intro v
  cases v <;> simp only [PropertyValue.textOk] <;> infer_instance

/-- The structural invariant of every reachable `SummaryInfo` state. -/
def SummaryInfo.baseWf (si : SummaryInfo) : Prop :=
  (si.properties.properties.map Prod.fst).Nodup ∧
  (∀ p ∈ si.properties.properties,
    p.1 < 4294967296 ∧ PropertyValue.wfNum p.2) ∧
  si.properties.fmtid = FMTID ∧
  si.properties.os = 2 ∧ si.properties.osVersion = 10

instance (si : SummaryInfo) : Decidable si.baseWf := by
  rw [SummaryInfo.baseWf]
  infer_instance

/-- All stored text of a state is within the length budget. -/
def SummaryInfo.textBounded (si : SummaryInfo) : Prop :=
  ∀ p ∈ si.properties.properties, PropertyValue.textOk p.2

instance (si : SummaryInfo) : Decidable si.textBounded := by
  rw [SummaryInfo.textBounded]
  infer_instance

/-- One mutation step: a typed setter or clearer call (§4.5; the setters
exercised by the `summary.rs` tests). -/
inductive SummaryOp where
  | opSetCodepage (cp : CodePage)
  | opSetTitle (s : String)
  | opSetSubject (s : String)
  | opSetAuthor (s : String)
  | opSetKeywords (s : String)
  | opSetComments (s : String)
  | opSetLastSavedBy (s : String)
  | opSetCreatingApplication (s : String)
  | opSetUuid (u : Uuid)
  | opSetLastPrinted (t : Nat)
  | opSetCreationTime (t : Nat)
  | opSetLastSaveTime (t : Nat)
  | opSetPageCount (v : Nat)
  | opSetWordCount (v : Nat)
  | opSetSecurity (v : Nat)
  | opSetArch (a : Architecture)
  | opSetLanguages (ls : List Language)
  | opClearField (f : SummaryInfoField)
  | opClearArch
  | opClearLanguages
  deriving DecidableEq, Repr

/-- Apply one mutation (a failing validating setter leaves the state
unchanged, §7). -/
def applyOp (si : SummaryInfo) : SummaryOp → SummaryInfo
  | .opSetCodepage cp => si.set_codepage cp
  | .opSetTitle s => si.set_title s
  | .opSetSubject s => si.set_subject s
  | .opSetAuthor s => si.set_author s
  | .opSetKeywords s => si.set_keywords s
  | .opSetComments s => si.set_comments s
  | .opSetLastSavedBy s => si.set_last_saved_by s
  | .opSetCreatingApplication s => si.set_creating_application s
  | .opSetUuid u => si.set_uuid u
  | .opSetLastPrinted t => si.set_last_printed t
  | .opSetCreationTime t => si.set_creation_time t
  | .opSetLastSaveTime t => si.set_last_save_time t
  | .opSetPageCount v => si.set_page_count v
  | .opSetWordCount v => si.set_word_count v
  | .opSetSecurity v =>
    match si.set_security v with
    | .ok si' => si'
    | .error _ => si
  | .opSetArch a => si.set_arch a
  | .opSetLanguages ls => si.set_languages ls
  | .opClearField f => si.clearField f
  | .opClearArch => si.clear_arch
  | .opClearLanguages => si.clear_languages

/-- Apply a sequence of mutations. -/
def applyOps (si : SummaryInfo) : List SummaryOp → SummaryInfo
  | [] => si
  | op :: ops => applyOps (applyOp si op) ops

/-! ## Claim support definitions -/

def c1ops : List SummaryOp :=
  [.opSetAuthor "Jane Doe", .opSetTitle "Installation Package",
    .opSetSubject "My Great App", .opSetComments "This app is the greatest!",
    .opSetCreatingApplication "cargo-test",
    .opSetLanguages [⟨4105⟩, ⟨3084⟩], .opSetArch .x64,
    .opSetWordCount 2, .opSetCreationTime 132223104000000000,
    .opSetUuid ⟨42, 12, 5, 3075, 10133099161609⟩, .opSetSecurity 2,
    .opSetPageCount 200]

def c1state : SummaryInfo := applyOps SummaryInfo.new c1ops

def c1out : List Nat := (SummaryInfo.write c1state).toOption.getD []

def c2buf : List Nat := (SummaryInfo.write SummaryInfo.new).toOption.getD []

def c3ps : PropertySet := PropertySet.new .win32 10 (List.replicate 16 0)

def c3bytes : List Nat := (PropertySet.write c3ps).toOption.getD []

def c5state : SummaryInfo := SummaryInfo.new.set_word_count 48879

def c5bytes : List Nat := (SummaryInfo.write c5state).toOption.getD []

def c10bytes : List Nat := c2buf

/-- What "the getter observes the field as absent" means, per logical
field (the composite template field is observed through `arch` and
`languages`; the character count is not exposed by this wrapper). -/
def fieldGetterNone (si : SummaryInfo) : SummaryInfoField → Prop
  | .codepage => si.codepage = none
  | .title => si.title = none
  | .subject => si.subject = none
  | .author => si.author = none
  | .keywords => si.keywords = none
  | .comments => si.comments = none
  | .template => si.arch = none ∧ si.languages = []
  | .lastSavedBy => si.last_saved_by = none
  | .revisionNumber => si.uuid = none
  | .lastPrinted => si.last_printed = none
  | .createDateTime => si.creation_time = none
  | .lastSaveDateTime => si.last_save_time = none
  | .pageCount => si.page_count = none
  | .wordCount => si.word_count = none
  | .characterCount => True
  | .creatingApplication => si.creating_application = none
  | .security => si.security = none

/-- Stored data a field's getter treats as malformed: a value of the
wrong variant, or (for the revision id) text that is not a well-formed
braced identifier, or (for the codepage) an unknown code-page id. -/
def wrongShape : SummaryInfoField → PropertyValue → Prop
  | .codepage, v =>
    match v with
    | .i2 raw => CodePage.fromId raw = none
    | _ => True
  | .title, v =>
    match v with
    | .lpstr _ => False
    | _ => True
  | .subject, v =>
    match v with
    | .lpstr _ => False
    | _ => True
  | .author, v =>
    match v with
    | .lpstr _ => False
    | _ => True
  | .keywords, v =>
    match v with
    | .lpstr _ => False
    | _ => True
  | .comments, v =>
    match v with
    | .lpstr _ => False
    | _ => True
  | .template, v =>
    match v with
    | .lpstr _ => False
    | _ => True
  | .lastSavedBy, v =>
    match v with
    | .lpstr _ => False
    | _ => True
  | .revisionNumber, v =>
    match v with
    | .lpstr s => parseUuid s = none
    | _ => True
  | .lastPrinted, v =>
    match v with
    | .filetime _ => False
    | _ => True
  | .createDateTime, v =>
    match v with
    | .filetime _ => False
    | _ => True
  | .lastSaveDateTime, v =>
    match v with
    | .filetime _ => False
    | _ => True
  | .pageCount, v =>
    match v with
    | .i4 _ => False
    | _ => True
  | .wordCount, v =>
    match v with
    | .i2 _ => False
    | _ => True
  | .characterCount, _ => True
  | .creatingApplication, v =>
    match v with
    | .lpstr _ => False
    | _ => True
  | .security, v =>
    match v with
    | .i4 _ => False
    | _ => True

theorem r16_w16 (n : Nat) (rest : List Nat) :
    r16 (w16 n ++ rest) = some (n % 65536) := by
  simp only [w16, List.cons_append, List.nil_append, r16]
  congr 1
  omega

theorem r32_w32 (n : Nat) (rest : List Nat) :
    r32 (w32 n ++ rest) = some (n % 4294967296) := by
  simp only [w32, List.cons_append, List.nil_append, r32]
  congr 1
  omega

theorem r64_w64 (n : Nat) (rest : List Nat) :
    r64 (w64 n ++ rest) = some (n % 18446744073709551616) := by
  simp only [w64, w32, List.cons_append, List.nil_append, List.append_assoc,
    r64]
  congr 1
  omega

theorem w16_length (n : Nat) : (w16 n).length = 2 := rfl

theorem w32_length (n : Nat) : (w32 n).length = 4 := rfl

theorem w64_length (n : Nat) : (w64 n).length = 8 := by
  simp [w64, w32]

/-- Reading at position `l.length` inside `l ++ tail` reads `tail`. -/
theorem drop_append_length {α : Type} (l tail : List α) :
    (l ++ tail).drop l.length = tail := List.drop_left l tail

theorem rBytes_exact (l rest : List Nat) (hlt : ∀ b ∈ l, b < 256) :
    rBytes l.length (l ++ rest) = some l := by
  unfold rBytes
  rw [if_pos (by simp)]
  rw [List.take_left]
  congr 1
  refine List.map_congr_left ?_ |>.trans (List.map_id l)
  intro b hb
  exact Nat.mod_eq_of_lt (hlt b hb)

theorem utf8DecodeF_nil (fuel : Nat) : utf8DecodeF fuel [] = some [] := by
  rcases fuel with _ | f <;> rfl

theorem utf8DecodeF_fuel (fuel : Nat) :
    ∀ (fuel' : Nat) (bs : List Nat), bs.length ≤ fuel →
      bs.length ≤ fuel' → utf8DecodeF fuel bs = utf8DecodeF fuel' bs := by
  induction fuel with
  | zero =>
    intro fuel' bs h _
    rcases bs with _ | ⟨b, bs⟩
    · rw [utf8DecodeF_nil, utf8DecodeF_nil]
    · simp at h
  | succ f ih =>
    intro fuel' bs h h'
    rcases bs with _ | ⟨b, bs⟩
    · rw [utf8DecodeF_nil, utf8DecodeF_nil]
    · rcases fuel' with _ | f'
      · simp at h'
      rw [utf8DecodeF.eq_3, utf8DecodeF.eq_3]
      rcases hstep : utf8DecodeStep b bs with _ | ⟨n, k⟩
      · rfl
      dsimp only
      have hlen : (bs.drop k).length ≤ f := by
        rw [List.length_drop]
        simp at h
        omega
      have hlen' : (bs.drop k).length ≤ f' := by
        rw [List.length_drop]
        simp at h'
        omega
      rw [ih f' (bs.drop k) hlen hlen']

/-- Step characterization of the decoder. -/
theorem utf8Decode_cons (b : Nat) (bs : List Nat) :
    utf8Decode (b :: bs) =
      match utf8DecodeStep b bs with
      | none => none
      | some (n, k) =>
        if h : Nat.isValidChar n then
          (utf8Decode (bs.drop k)).map fun cs => Char.ofNatAux n h :: cs
        else none := by
  show utf8DecodeF (bs.length + 1) (b :: bs) = _
  rw [utf8DecodeF.eq_3]
  rcases hstep : utf8DecodeStep b bs with _ | ⟨n, k⟩
  · rfl
  dsimp only
  rw [utf8DecodeF_fuel bs.length (bs.drop k).length (bs.drop k)
    (by rw [List.length_drop]; omega) (le_refl _)]
  rfl

theorem utf8Decode_nil : utf8Decode [] = some [] := rfl

theorem Char.toNat_ofNatAux (n : Nat) (h : n.isValidChar) :
    (Char.ofNatAux n h).toNat = n := by
  simp [Char.ofNatAux, Char.toNat, UInt32.toNat, UInt32.ofNatCore]

theorem Char.eq_of_toNat_eq {a b : Char} (h : a.toNat = b.toNat) : a = b := by
  apply Char.ext
  apply UInt32.ext
  exact h

theorem Char.toNat_valid (c : Char) : Nat.isValidChar c.toNat := c.valid

theorem Char.toNat_lt_max (c : Char) : c.toNat < 1114112 := by
  have h := Char.toNat_valid c
  rcases h with h | ⟨_, h2⟩ <;> omega

theorem isCont_iff (b : Nat) : isCont b = true ↔ 128 ≤ b ∧ b < 192 := by
  simp only [isCont, Bool.and_eq_true, decide_eq_true_eq]

theorem utf8Decode_cons_some (b : Nat) (bs : List Nat) (n k : Nat)
    (hstep : utf8DecodeStep b bs = some (n, k)) (h : Nat.isValidChar n) :
    utf8Decode (b :: bs) =
      (utf8Decode (bs.drop k)).map fun cs => Char.ofNatAux n h :: cs := by
  rw [utf8Decode_cons, hstep]
  exact dif_pos h

/-- Decoding an encoded scalar from the front of a stream peels off exactly
that character. -/
theorem utf8Decode_encodeChar (c : Char) (rest : List Nat) :
    utf8Decode (utf8EncodeChar c ++ rest) =
      (utf8Decode rest).map fun cs => c :: cs := by
  have hv : Nat.isValidChar c.toNat := Char.toNat_valid c
  have hmax : c.toNat < 1114112 := Char.toNat_lt_max c
  have hre : Char.ofNatAux c.toNat hv = c :=
    Char.eq_of_toNat_eq (by rw [Char.toNat_ofNatAux])
  by_cases h1 : c.toNat < 128
  · rw [utf8EncodeChar, if_pos h1]
    have hstep : utf8DecodeStep c.toNat rest = some (c.toNat, 0) := by
      unfold utf8DecodeStep
      rw [if_pos h1]
    rw [List.cons_append, List.nil_append,
      utf8Decode_cons_some _ _ _ _ hstep hv, List.drop_zero, hre]
  · by_cases h2 : c.toNat < 2048
    · rw [utf8EncodeChar, if_neg h1, if_pos h2]
      have harith : (192 + c.toNat / 64 - 192) * 64 +
          (128 + c.toNat % 64 - 128) = c.toNat := by omega
      have hstep : utf8DecodeStep (192 + c.toNat / 64)
          ((128 + c.toNat % 64) :: rest) = some (c.toNat, 1) := by
        unfold utf8DecodeStep
        rw [if_neg (by omega), if_neg (by omega), if_pos (by omega)]
        show (if isCont (128 + c.toNat % 64) = true then
            some ((192 + c.toNat / 64 - 192) * 64 +
              (128 + c.toNat % 64 - 128), 1)
          else none) = some (c.toNat, 1)
        rw [if_pos (by rw [isCont_iff]; omega), harith]
      rw [List.cons_append, List.cons_append, List.nil_append,
        utf8Decode_cons_some _ _ _ _ hstep hv]
      simp only [List.drop_succ_cons, List.drop_zero]
      rw [hre]
    · by_cases h3 : c.toNat < 65536
      · rw [utf8EncodeChar, if_neg h1, if_neg h2, if_pos h3]
        have harith : (224 + c.toNat / 4096 - 224) * 4096 +
            (128 + c.toNat / 64 % 64 - 128) * 64 +
            (128 + c.toNat % 64 - 128) = c.toNat := by omega
        have hstep : utf8DecodeStep (224 + c.toNat / 4096)
            ((128 + c.toNat / 64 % 64) :: (128 + c.toNat % 64) :: rest) =
            some (c.toNat, 2) := by
          unfold utf8DecodeStep
          rw [if_neg (by omega), if_neg (by omega), if_neg (by omega),
            if_pos (by omega)]
          show (if (isCont (128 + c.toNat / 64 % 64) &&
              isCont (128 + c.toNat % 64)) = true then
              some ((224 + c.toNat / 4096 - 224) * 4096 +
                (128 + c.toNat / 64 % 64 - 128) * 64 +
                (128 + c.toNat % 64 - 128), 2)
            else none) = some (c.toNat, 2)
          rw [if_pos (by simp only [Bool.and_eq_true, isCont_iff]; omega),
            harith]
        rw [List.cons_append, List.cons_append, List.cons_append,
          List.nil_append, utf8Decode_cons_some _ _ _ _ hstep hv]
        simp only [List.drop_succ_cons, List.drop_zero]
        rw [hre]
      · rw [utf8EncodeChar, if_neg h1, if_neg h2, if_neg h3]
        have harith : (240 + c.toNat / 262144 - 240) * 262144 +
            (128 + c.toNat / 4096 % 64 - 128) * 4096 +
            (128 + c.toNat / 64 % 64 - 128) * 64 +
            (128 + c.toNat % 64 - 128) = c.toNat := by omega
        have hstep : utf8DecodeStep (240 + c.toNat / 262144)
            ((128 + c.toNat / 4096 % 64) :: (128 + c.toNat / 64 % 64) ::
              (128 + c.toNat % 64) :: rest) = some (c.toNat, 3) := by
          unfold utf8DecodeStep
          rw [if_neg (by omega), if_neg (by omega), if_neg (by omega),
            if_neg (by omega), if_pos (by omega)]
          show (if (isCont (128 + c.toNat / 4096 % 64) &&
              isCont (128 + c.toNat / 64 % 64) &&
              isCont (128 + c.toNat % 64)) = true then
              some ((240 + c.toNat / 262144 - 240) * 262144 +
                (128 + c.toNat / 4096 % 64 - 128) * 4096 +
                (128 + c.toNat / 64 % 64 - 128) * 64 +
                (128 + c.toNat % 64 - 128), 3)
            else none) = some (c.toNat, 3)
          rw [if_pos (by simp only [Bool.and_eq_true, isCont_iff]; omega),
            harith]
        rw [List.cons_append, List.cons_append, List.cons_append,
          List.cons_append, List.nil_append,
          utf8Decode_cons_some _ _ _ _ hstep hv]
        simp only [List.drop_succ_cons, List.drop_zero]
        rw [hre]

theorem utf8Decode_utf8Encode (cs : List Char) (rest : List Nat) :
    utf8Decode (utf8Encode cs ++ rest) =
      (utf8Decode rest).map fun tl => cs ++ tl := by
  induction cs with
  | nil =>
    rw [utf8Encode, List.nil_append]
    cases utf8Decode rest <;> simp
  | cons c cs ih =>
    rw [utf8Encode, List.append_assoc, utf8Decode_encodeChar, ih]
    cases utf8Decode rest <;> simp

theorem utf8Decode_encode_nil (cs : List Char) :
    utf8Decode (utf8Encode cs) = some cs := by
  have h := utf8Decode_utf8Encode cs []
  rw [List.append_nil] at h
  rw [h]
  rw [utf8Decode_nil]
  simp

theorem utf8EncodeChar_lt (c : Char) : ∀ b ∈ utf8EncodeChar c, b < 256 := by
  have hmax := Char.toNat_lt_max c
  unfold utf8EncodeChar
  split_ifs with h1 h2 h3 <;> intro b hb <;>
    simp only [List.mem_cons, List.not_mem_nil, or_false] at hb
  · omega
  · rcases hb with rfl | rfl <;> omega
  · rcases hb with rfl | rfl | rfl <;> omega
  · rcases hb with rfl | rfl | rfl | rfl <;> omega

theorem utf8Encode_lt (cs : List Char) : ∀ b ∈ utf8Encode cs, b < 256 := by
  induction cs with
  | nil => intro b hb; simp [utf8Encode] at hb
  | cons c cs ih =>
    intro b hb
    rw [utf8Encode] at hb
    rcases List.mem_append.mp hb with h | h
    · exact utf8EncodeChar_lt c b h
    · exact ih b h

theorem find?_snd_of_mem {l : List (Char × Nat)}
    (hn : (l.map Prod.snd).Nodup) {c : Char} {b : Nat} (hm : (c, b) ∈ l) :
    l.find? (fun q => q.2 == b) = some (c, b) := by
  induction l with
  | nil => cases hm
  | cons p tl ih =>
    rw [List.map_cons, List.nodup_cons] at hn
    rcases List.mem_cons.mp hm with heq | htl
    · subst heq
      rw [List.find?_cons_of_pos _ (by simp)]
    · by_cases hb : p.2 = b
      · exfalso
        exact hn.1 (hb ▸ List.mem_map_of_mem Prod.snd htl)
      · rw [List.find?_cons_of_neg _ (by simp [hb])]
        exact ih hn.2 htl

theorem find?_fst_of_mem {l : List (Char × Nat)}
    (hn : (l.map Prod.fst).Nodup) {c : Char} {b : Nat} (hm : (c, b) ∈ l) :
    l.find? (fun q => q.1 == c) = some (c, b) := by
  induction l with
  | nil => cases hm
  | cons p tl ih =>
    rw [List.map_cons, List.nodup_cons] at hn
    rcases List.mem_cons.mp hm with heq | htl
    · subst heq
      rw [List.find?_cons_of_pos _ (by simp)]
    · by_cases hc : p.1 = c
      · exfalso
        exact hn.1 (hc ▸ List.mem_map_of_mem Prod.fst htl)
      · rw [List.find?_cons_of_neg _ (by simp [hc])]
        exact ih hn.2 htl

theorem cp1252Table_snd_nodup : (cp1252Table.map Prod.snd).Nodup := by
  decide

theorem cp1252Table_fst_nodup : (cp1252Table.map Prod.fst).Nodup := by
  decide

theorem cp1252Table_snd_range : ∀ p ∈ cp1252Table, 128 ≤ p.2 ∧ p.2 ≤ 159 := by
  decide

theorem cp1252Table_fst_range :
    ∀ p ∈ cp1252Table, ¬(p.1.toNat < 128) ∧
      ¬(160 ≤ p.1.toNat ∧ p.1.toNat ≤ 255) := by
  decide

/-- A Windows-1252 encoded character decodes back to itself, and the byte
re-encodes from the decoded character: the two tables are exact inverses. -/
theorem cp1252_decode_encode (c : Char) (b : Nat)
    (h : cp1252EncodeChar c = some b) : cp1252DecodeByte b = some c := by
  unfold cp1252EncodeChar at h
  split_ifs at h with h1 h2
  · rw [Option.some_inj] at h
    subst h
    rw [cp1252DecodeByte, dif_pos h1]
    congr 1
  · rw [Option.some_inj] at h
    subst h
    rw [cp1252DecodeByte, dif_neg (by omega), dif_pos h2]
    congr 1
  · rcases Option.map_eq_some'.mp h with ⟨p, hfind, hsnd⟩
    have hmem := List.mem_of_find?_eq_some hfind
    have hpred := List.find?_some hfind
    rw [beq_iff_eq] at hpred
    have hrange := cp1252Table_snd_range p hmem
    rw [cp1252DecodeByte, dif_neg (by omega), dif_neg (by omega)]
    have : cp1252Table.find? (fun q => q.2 == b) = some (p.1, p.2) := by
      subst hsnd
      exact find?_snd_of_mem cp1252Table_snd_nodup hmem
    rw [this]
    simp [hpred]

theorem cp1252_encode_decode (b : Nat) (c : Char)
    (h : cp1252DecodeByte b = some c) : cp1252EncodeChar c = some b := by
  unfold cp1252DecodeByte at h
  split_ifs at h with h1 h2
  · rw [Option.some_inj] at h
    have hc : c.toNat = b := by rw [← h, Char.toNat_ofNatAux]
    rw [cp1252EncodeChar, if_pos (by omega), hc]
  · rw [Option.some_inj] at h
    have hc : c.toNat = b := by rw [← h, Char.toNat_ofNatAux]
    rw [cp1252EncodeChar, if_neg (by omega), if_pos (by omega), hc]
  · rcases Option.map_eq_some'.mp h with ⟨p, hfind, hfst⟩
    have hmem := List.mem_of_find?_eq_some hfind
    have hpred := List.find?_some hfind
    rw [beq_iff_eq] at hpred
    have hrange := cp1252Table_fst_range p hmem
    rw [cp1252EncodeChar, if_neg (hfst ▸ hrange.1),
      if_neg (hfst ▸ hrange.2)]
    have : cp1252Table.find? (fun q => q.1 == c) = some (p.1, p.2) := by
      subst hfst
      exact find?_fst_of_mem cp1252Table_fst_nodup hmem
    rw [this]
    simp [hpred]

theorem cp1252Decode_cp1252Encode (cs : List Char) (bs : List Nat)
    (h : cp1252Encode cs = some bs) : cp1252Decode bs = some cs := by
  induction cs generalizing bs with
  | nil =>
    rw [cp1252Encode] at h
    rw [Option.some_inj] at h
    subst h
    rfl
  | cons c cs ih =>
    rw [cp1252Encode] at h
    rcases hc : cp1252EncodeChar c with _ | b <;> rw [hc] at h
    · cases h
    rcases hcs : cp1252Encode cs with _ | tl <;> rw [hcs] at h
    · cases h
    rw [Option.some_inj] at h
    subst h
    rw [cp1252Decode, cp1252_decode_encode c b hc, ih tl hcs]

theorem cp1252Encode_cp1252Decode (bs : List Nat) (cs : List Char)
    (h : cp1252Decode bs = some cs) : cp1252Encode cs = some bs := by
  induction bs generalizing cs with
  | nil =>
    rw [cp1252Decode] at h
    rw [Option.some_inj] at h
    subst h
    rfl
  | cons b bs ih =>
    rw [cp1252Decode] at h
    rcases hb : cp1252DecodeByte b with _ | c <;> rw [hb] at h
    · cases h
    rcases hbs : cp1252Decode bs with _ | tl <;> rw [hbs] at h
    · cases h
    rw [Option.some_inj] at h
    subst h
    rw [cp1252Encode, cp1252_encode_decode b c hb, ih tl hbs]

theorem cp1252EncodeChar_lt (c : Char) (b : Nat)
    (h : cp1252EncodeChar c = some b) : b < 256 := by
  unfold cp1252EncodeChar at h
  split_ifs at h with h1 h2
  · rw [Option.some_inj] at h
    omega
  · rw [Option.some_inj] at h
    omega
  · rcases Option.map_eq_some'.mp h with ⟨p, hfind, hsnd⟩
    have hrange := cp1252Table_snd_range p (List.mem_of_find?_eq_some hfind)
    omega

theorem cp1252Encode_lt (cs : List Char) (bs : List Nat)
    (h : cp1252Encode cs = some bs) : ∀ b ∈ bs, b < 256 := by
  induction cs generalizing bs with
  | nil =>
    rw [cp1252Encode] at h
    rw [Option.some_inj] at h
    subst h
    intro b hb
    cases hb
  | cons c cs ih =>
    rw [cp1252Encode] at h
    rcases hc : cp1252EncodeChar c with _ | b0 <;> rw [hc] at h
    · cases h
    rcases hcs : cp1252Encode cs with _ | tl <;> rw [hcs] at h
    · cases h
    rw [Option.some_inj] at h
    subst h
    intro b hb
    rcases List.mem_cons.mp hb with rfl | htl
    · exact cp1252EncodeChar_lt c b hc
    · exact ih tl hcs b htl

/-- §3 invariant of CodePage: `decode(encode(s)) == s` for representable
text. -/
theorem CodePage.decodeChars_encodeChars (cp : CodePage) (cs : List Char)
    (bs : List Nat) (h : cp.encodeChars cs = some bs) :
    cp.decodeChars bs = some cs := by
  cases cp
  · rw [CodePage.encodeChars] at h
    rw [Option.some_inj] at h
    subst h
    exact utf8Decode_encode_nil cs
  · exact cp1252Decode_cp1252Encode cs bs h

/-- Decoded text is always re-encodable in the same code page. -/
theorem CodePage.encodeChars_decodeChars (cp : CodePage) (bs : List Nat)
    (cs : List Char) (h : cp.decodeChars bs = some cs) :
    ∃ out, cp.encodeChars cs = some out := by
  cases cp
  · exact ⟨utf8Encode cs, rfl⟩
  · exact ⟨bs, cp1252Encode_cp1252Decode bs cs h⟩

theorem CodePage.encodeChars_lt (cp : CodePage) (cs : List Char)
    (bs : List Nat) (h : cp.encodeChars cs = some bs) : ∀ b ∈ bs, b < 256 := by
  cases cp
  · rw [CodePage.encodeChars] at h
    rw [Option.some_inj] at h
    subst h
    exact utf8Encode_lt cs
  · exact cp1252Encode_lt cs bs h

/-! ## Write/read inverse lemmas -/

theorem drop_add (l : List Nat) (m k : Nat) :
    l.drop (m + k) = (l.drop m).drop k := (List.drop_drop k m l).symm

theorem drop2_w16 (a : Nat) (l : List Nat) : (w16 a ++ l).drop 2 = l := rfl

theorem drop4_w32 (a : Nat) (l : List Nat) : (w32 a ++ l).drop 4 = l := rfl

theorem drop8_w64 (a : Nat) (l : List Nat) : (w64 a ++ l).drop 8 = l := rfl

theorem drop16_rep (l : List Nat) :
    (List.replicate 16 0 ++ l).drop 16 = l := rfl

theorem utf8EncodeChar_length (c : Char) : (utf8EncodeChar c).length ≤ 4 := by
  unfold utf8EncodeChar
  split_ifs <;> simp

theorem utf8Encode_length (cs : List Char) :
    (utf8Encode cs).length ≤ 4 * cs.length := by
  induction cs with
  | nil => simp [utf8Encode]
  | cons c cs ih =>
    rw [utf8Encode, List.length_append, List.length_cons]
    have := utf8EncodeChar_length c
    omega

theorem cp1252Encode_length (cs : List Char) (bs : List Nat)
    (h : cp1252Encode cs = some bs) : bs.length = cs.length := by
  induction cs generalizing bs with
  | nil =>
    rw [cp1252Encode, Option.some_inj] at h
    subst h
    rfl
  | cons c cs ih =>
    rw [cp1252Encode] at h
    rcases hc : cp1252EncodeChar c with _ | b0 <;> rw [hc] at h
    · cases h
    rcases hcs : cp1252Encode cs with _ | tl <;> rw [hcs] at h
    · cases h
    rw [Option.some_inj] at h
    subst h
    rw [List.length_cons, List.length_cons, ih tl hcs]

theorem encodeChars_length (cp : CodePage) (cs : List Char) (bs : List Nat)
    (h : cp.encodeChars cs = some bs) : bs.length ≤ 4 * cs.length := by
  cases cp
  · rw [CodePage.encodeChars, Option.some_inj] at h
    subst h
    exact utf8Encode_length cs
  · rw [cp1252Encode_length cs bs h]
    omega

/-- Parsing a serialized well-formed value at its position recovers the
value, consuming at most the padded serialization. -/
theorem parseValueAt_serialize (cp : CodePage) (v : PropertyValue)
    (bytes : List Nat) (hwf : v.wf)
    (hser : serializeValue cp v = .ok bytes)
    (all suf : List Nat) (pos : Nat)
    (hall : all.drop pos = bytes ++ suf) :
    ∃ ilen, ilen ≤ bytes.length ∧ parseValueAt all cp pos = .ok (v, ilen) := by
  cases v with
  | i2 raw =>
    rw [serializeValue, Except.ok.injEq] at hser
    subst hser
    refine ⟨8, by simp [w32], ?_⟩
    have h1 : getU32 all pos = some 2 := by
      rw [getU32, hall, List.append_assoc]
      simpa using r32_w32 2 _
    have h2 : getU32 all (pos + 4) = some raw := by
      rw [getU32, drop_add, hall, List.append_assoc, drop4_w32]
      rw [r32_w32]
      congr 1
      have hr : raw % 65536 = raw := Nat.mod_eq_of_lt hwf
      omega
    rw [parseValueAt, h1]
    simp only [reduceIte, h2]
    rw [Except.ok.injEq, Prod.mk.injEq]
    constructor
    · rw [PropertyValue.i2.injEq]
      exact Nat.mod_eq_of_lt hwf
    · rfl
  | i4 raw =>
    rw [serializeValue, Except.ok.injEq] at hser
    subst hser
    refine ⟨8, by simp [w32], ?_⟩
    have h1 : getU32 all pos = some 3 := by
      rw [getU32, hall, List.append_assoc]
      simpa using r32_w32 3 _
    have h2 : getU32 all (pos + 4) = some raw := by
      rw [getU32, drop_add, hall, List.append_assoc, drop4_w32]
      rw [r32_w32]
      congr 1
      exact Nat.mod_eq_of_lt hwf
    rw [parseValueAt, h1]
    simp only [h2]
    norm_num
  | filetime t =>
    rw [serializeValue, Except.ok.injEq] at hser
    subst hser
    refine ⟨12, by simp [w32, w64], ?_⟩
    have h1 : getU32 all pos = some 64 := by
      rw [getU32, hall, List.append_assoc]
      simpa using r32_w32 64 _
    have h2 : getU64 all (pos + 4) = some t := by
      rw [getU64, drop_add, hall, List.append_assoc, drop4_w32]
      rw [r64_w64]
      congr 1
      exact Nat.mod_eq_of_lt hwf
    rw [parseValueAt, h1]
    simp only [h2]
    norm_num
  | lpstr str =>
    rw [serializeValue] at hser
    rcases henc : CodePage.encodeChars cp str.data with _ | enc <;>
      rw [henc] at hser
    · cases hser
    rw [Except.ok.injEq] at hser
    subst hser
    have hencLen : enc.length ≤ 4 * str.data.length :=
      encodeChars_length cp str.data enc henc
    have hlenlt : enc.length + 1 < 4294967296 := by
      simp only [PropertyValue.wf] at hwf
      omega
    have hencLt : ∀ b ∈ enc, b < 256 := CodePage.encodeChars_lt cp _ enc henc
    refine ⟨8 + (enc.length + 1), by simp [w32]; omega, ?_⟩
    have h1 : getU32 all pos = some 30 := by
      rw [getU32, hall, List.append_assoc]
      simpa using r32_w32 30 _
    have h2 : getU32 all (pos + 4) = some (enc.length + 1) := by
      rw [getU32, drop_add, hall]
      simp only [List.append_assoc]
      rw [drop4_w32, r32_w32]
      congr 1
      exact Nat.mod_eq_of_lt hlenlt
    have h3 : getBytes all (pos + 8) (enc.length + 1) =
        some (enc ++ [0]) := by
      rw [getBytes, drop_add, hall]
      have : (w32 30 ++ w32 (enc.length + 1) ++ enc ++ [0] ++
          List.replicate (padLen (enc.length + 1)) 0 ++ suf).drop 8 =
          (enc ++ [0]) ++ (List.replicate (padLen (enc.length + 1)) 0 ++
            suf) := by
        simp only [List.append_assoc]
        rw [show (8 : Nat) = 4 + 4 from rfl, drop_add, drop4_w32, drop4_w32]
      rw [this]
      have hlen2 : (enc ++ [0]).length = enc.length + 1 := by simp
      rw [← hlen2, rBytes_exact]
      intro b hb
      rcases List.mem_append.mp hb with h | h
      · exact hencLt b h
      · simp at h
        omega
    rw [parseValueAt, h1]
    simp only [reduceIte, h2, h3]
    have h4 : (enc ++ [0]).take (enc.length + 1 - 1) = enc := by
      simp [List.take_left]
    rw [h4, CodePage.decodeChars_encodeChars cp str.data enc henc]
    rfl

theorem dirBytes_length (dir : List (Nat × Nat)) :
    (dirBytes dir).length = 8 * dir.length := by
  induction dir with
  | nil => rfl
  | cons p tl ih =>
    rcases p with ⟨id, off⟩
    rw [dirBytes, List.append_assoc, List.length_append, List.length_append,
      w32_length, w32_length, ih, List.length_cons]
    omega

theorem serializeProps_cons (cp : CodePage) (id : Nat) (v : PropertyValue)
    (tl : List (Nat × PropertyValue)) (parts : List (Nat × List Nat))
    (h : serializeProps cp ((id, v) :: tl) = .ok parts) :
    ∃ bytes parts', serializeValue cp v = .ok bytes ∧
      serializeProps (nextCp cp id v) tl = .ok parts' ∧
      parts = (id, bytes) :: parts' := by
  rw [serializeProps] at h
  rcases hb : serializeValue cp v with e | bytes <;> rw [hb] at h
  · cases h
  rcases ht : serializeProps (nextCp cp id v) tl with e | parts' <;>
    rw [ht] at h
  · cases h
  rw [Except.ok.injEq] at h
  exact ⟨bytes, parts', rfl, rfl, h.symm⟩

theorem serializeProps_map_fst (cp : CodePage)
    (props : List (Nat × PropertyValue)) (parts : List (Nat × List Nat))
    (h : serializeProps cp props = .ok parts) :
    parts.map Prod.fst = props.map Prod.fst := by
  induction props generalizing cp parts with
  | nil =>
    rw [serializeProps, Except.ok.injEq] at h
    subst h
    rfl
  | cons p tl ih =>
    rcases p with ⟨id, v⟩
    rcases serializeProps_cons cp id v tl parts h with
      ⟨bytes, parts', _, ht, rfl⟩
    rw [List.map_cons, List.map_cons, ih (nextCp cp id v) parts' ht]

theorem layout_fst_map (start : Nat) (parts : List (Nat × List Nat)) :
    ((layout start parts).1).map Prod.fst = parts.map Prod.fst := by
  induction parts generalizing start with
  | nil => rfl
  | cons p tl ih =>
    rcases p with ⟨id, bytes⟩
    rw [layout, List.map_cons, List.map_cons, ih]

theorem layout_length (start : Nat) (parts : List (Nat × List Nat)) :
    (layout start parts).1.length = parts.length := by
  induction parts generalizing start with
  | nil => rfl
  | cons p tl ih =>
    rcases p with ⟨id, bytes⟩
    rw [layout, List.length_cons, List.length_cons, ih]

theorem layout_offsets (start : Nat) (parts : List (Nat × List Nat)) :
    ∀ p ∈ (layout start parts).1,
      start ≤ p.2 ∧ p.2 ≤ start + (layout start parts).2.length := by
  induction parts generalizing start with
  | nil => intro p hp; cases hp
  | cons q tl ih =>
    rcases q with ⟨id, bytes⟩
    intro p hp
    rw [layout] at hp ⊢
    rcases List.mem_cons.mp hp with rfl | htl
    · simp
    · have := ih (start + bytes.length) p htl
      rw [List.length_append]
      omega

theorem parseDir_dirBytes (dir : List (Nat × Nat)) :
    ∀ (all suf : List Nat) (pos : Nat),
      (∀ p ∈ dir, p.1 < 4294967296 ∧ p.2 < 4294967296) →
      all.drop pos = dirBytes dir ++ suf →
      parseDir all dir.length pos = .ok dir := by
  induction dir with
  | nil => intro all suf pos _ _; rfl
  | cons p tl ih =>
    rcases p with ⟨id, off⟩
    intro all suf pos hbound hall
    have hid : getU32 all pos = some id := by
      rw [getU32, hall, dirBytes]
      simp only [List.append_assoc]
      rw [r32_w32]
      congr 1
      exact Nat.mod_eq_of_lt (hbound (id, off) (by simp)).1
    have hoff : getU32 all (pos + 4) = some off := by
      rw [getU32, drop_add, hall, dirBytes]
      simp only [List.append_assoc]
      rw [drop4_w32, r32_w32]
      congr 1
      exact Nat.mod_eq_of_lt (hbound (id, off) (by simp)).2
    have hrest : parseDir all tl.length (pos + 8) = .ok tl := by
      refine ih all suf (pos + 8) (fun q hq => hbound q (by simp [hq])) ?_
      rw [drop_add, hall, dirBytes]
      simp only [List.append_assoc]
      rw [show (8 : Nat) = 4 + 4 from rfl, drop_add, drop4_w32, drop4_w32]
    rw [List.length_cons, parseDir, hid, hoff]
    simp only [hrest]

theorem decodeEntries_serialize (props : List (Nat × PropertyValue)) :
    ∀ (cp : CodePage) (parts : List (Nat × List Nat)),
      serializeProps cp props = .ok parts →
      (∀ p ∈ props, PropertyValue.wf p.2) →
      ∀ (all suf : List Nat) (base start size : Nat),
        all.drop (base + start) = (layout start parts).2 ++ suf →
        start + (layout start parts).2.length ≤ size →
        decodeEntries all base size cp (layout start parts).1 = .ok props := by
  induction props with
  | nil =>
    intro cp parts hser _ all suf base start size _ _
    rw [serializeProps, Except.ok.injEq] at hser
    subst hser
    rfl
  | cons p tl ih =>
    rcases p with ⟨id, v⟩
    intro cp parts hser hwf all suf base start size hall hsize
    rcases serializeProps_cons cp id v tl parts hser with
      ⟨bytes, parts', hb, ht, rfl⟩
    rw [layout] at hall hsize ⊢
    rcases parseValueAt_serialize cp v bytes
        (hwf (id, v) (by simp)) hb all
        ((layout (start + bytes.length) parts').2 ++ suf) (base + start)
        (by rw [hall, List.append_assoc]) with ⟨ilen, hilen, hpv⟩
    rw [decodeEntries, hpv]
    dsimp only
    rw [List.length_append] at hsize
    rw [if_pos (by omega)]
    have hrec : decodeEntries all base size (nextCp cp id v)
        (layout (start + bytes.length) parts').1 = .ok tl := by
      refine ih (nextCp cp id v) parts' ht
        (fun q hq => hwf q (by simp [hq])) all suf base
        (start + bytes.length) size ?_ (by omega)
      rw [← Nat.add_assoc, drop_add, hall, List.append_assoc,
        List.drop_left]
    simp only [hrec]

/-- Parsing the written form of a well-formed property set (whose section
fits the 32-bit size fields) recovers the set exactly. -/
theorem PropertySet.parse_write (ps : PropertySet) (out : List Nat)
    (hwf : ps.wf) (hw : ps.write = .ok out)
    (hsz : out.length < 4294967344) :
    PropertySet.parse out = .ok ps := by
  obtain ⟨hnodup, hvals, hfmt, hfmtlt, hos, hosv⟩ := hwf
  rw [PropertySet.write] at hw
  rcases hser : serializeProps .utf8 ps.properties with e | parts <;>
    rw [hser] at hw
  · cases hw
  rw [Except.ok.injEq] at hw
  have hplen : parts.length = ps.properties.length := by
    have h1 := congrArg List.length
      (serializeProps_map_fst .utf8 ps.properties parts hser)
    simpa using h1
  subst hw
  rw [assemble] at hsz ⊢
  set n := ps.properties.length with hn_def
  set dir := (layout (8 + 8 * n) parts).1 with hdir_def
  set blob := (layout (8 + 8 * n) parts).2 with hblob_def
  set ss := 8 + 8 * n + blob.length with hss_def
  set A := w16 65534 ++ (w16 0 ++ (w16 ps.osVersion ++ (w16 ps.os ++
    (List.replicate 16 0 ++ (w32 1 ++ (ps.fmtid ++ (w32 48 ++
      (w32 ss ++ (w32 n ++ (dirBytes dir ++ blob)))))))))) with hA_def
  have hdirlen : dir.length = n := by
    rw [hdir_def, layout_length, hplen]
  have hAlen : A.length = 56 + 8 * n + blob.length := by
    rw [hA_def]
    simp only [List.length_append, w16_length, w32_length,
      List.length_replicate, hfmt, dirBytes_length, hdirlen]
    omega
  have hss32 : ss < 4294967296 := by
    rw [hAlen] at hsz
    rw [hss_def]
    omega
  have hn32 : n < 4294967296 := by
    rw [hss_def] at hss32
    omega
  have d2 : A.drop 2 = w16 0 ++ (w16 ps.osVersion ++ (w16 ps.os ++
      (List.replicate 16 0 ++ (w32 1 ++ (ps.fmtid ++ (w32 48 ++
        (w32 ss ++ (w32 n ++ (dirBytes dir ++ blob))))))))) := by
    rw [hA_def, drop2_w16]
  have d4 : A.drop 4 = w16 ps.osVersion ++ (w16 ps.os ++
      (List.replicate 16 0 ++ (w32 1 ++ (ps.fmtid ++ (w32 48 ++
        (w32 ss ++ (w32 n ++ (dirBytes dir ++ blob)))))))) := by
    rw [show (4 : Nat) = 2 + 2 from rfl, drop_add, d2, drop2_w16]
  have d6 : A.drop 6 = w16 ps.os ++ (List.replicate 16 0 ++ (w32 1 ++
      (ps.fmtid ++ (w32 48 ++ (w32 ss ++ (w32 n ++
        (dirBytes dir ++ blob))))))) := by
    rw [show (6 : Nat) = 4 + 2 from rfl, drop_add, d4, drop2_w16]
  have d8 : A.drop 8 = List.replicate 16 0 ++ (w32 1 ++ (ps.fmtid ++
      (w32 48 ++ (w32 ss ++ (w32 n ++ (dirBytes dir ++ blob)))))) := by
    rw [show (8 : Nat) = 6 + 2 from rfl, drop_add, d6, drop2_w16]
  have d24 : A.drop 24 = w32 1 ++ (ps.fmtid ++ (w32 48 ++ (w32 ss ++
      (w32 n ++ (dirBytes dir ++ blob))))) := by
    rw [show (24 : Nat) = 8 + 16 from rfl, drop_add, d8, drop16_rep]
  have d28 : A.drop 28 = ps.fmtid ++ (w32 48 ++ (w32 ss ++ (w32 n ++
      (dirBytes dir ++ blob)))) := by
    rw [show (28 : Nat) = 24 + 4 from rfl, drop_add, d24, drop4_w32]
  have d44 : A.drop 44 = w32 48 ++ (w32 ss ++ (w32 n ++
      (dirBytes dir ++ blob))) := by
    rw [show (44 : Nat) = 28 + 16 from rfl, drop_add, d28, ← hfmt,
      List.drop_left]
  have d48 : A.drop 48 = w32 ss ++ (w32 n ++ (dirBytes dir ++ blob)) := by
    rw [show (48 : Nat) = 44 + 4 from rfl, drop_add, d44, drop4_w32]
  have d52 : A.drop 52 = w32 n ++ (dirBytes dir ++ blob) := by
    rw [show (52 : Nat) = 48 + 4 from rfl, drop_add, d48, drop4_w32]
  have d56 : A.drop 56 = dirBytes dir ++ blob := by
    rw [show (56 : Nat) = 52 + 4 from rfl, drop_add, d52, drop4_w32]
  have hbom : getU16 A 0 = some 65534 := by
    rw [getU16, List.drop_zero, hA_def, r16_w16]
  have hver : getU16 A 2 = some 0 := by
    rw [getU16, d2, r16_w16]
  have hosv2 : getU16 A 4 = some ps.osVersion := by
    rw [getU16, d4, r16_w16, Nat.mod_eq_of_lt hosv]
  have hos2 : getU16 A 6 = some ps.os := by
    rw [getU16, d6, r16_w16, Nat.mod_eq_of_lt hos]
  have hcls : getBytes A 8 16 = some (List.replicate 16 0) := by
    rw [getBytes, d8]
    rw [show (16 : Nat) = (List.replicate 16 (0 : Nat)).length by simp]
    exact rBytes_exact _ _ (by intro b hb; simp at hb; omega)
  have hcnt : getU32 A 24 = some 1 := by
    rw [getU32, d24, r32_w32]
  have hfm : getBytes A 28 16 = some ps.fmtid := by
    rw [getBytes, d28, ← hfmt]
    exact rBytes_exact _ _ hfmtlt
  have hso : getU32 A 44 = some 48 := by
    rw [getU32, d44, r32_w32]
  have hsize2 : getU32 A 48 = some ss := by
    rw [getU32, d48, r32_w32, Nat.mod_eq_of_lt hss32]
  have hn2 : getU32 A (48 + 4) = some n := by
    rw [getU32, show (48 + 4 : Nat) = 52 from rfl, d52, r32_w32,
      Nat.mod_eq_of_lt hn32]
  have hids : dir.map Prod.fst = ps.properties.map Prod.fst := by
    rw [hdir_def, layout_fst_map, serializeProps_map_fst _ _ _ hser]
  have hdirb : ∀ p ∈ dir, p.1 < 4294967296 ∧ p.2 < 4294967296 := by
    intro p hp
    constructor
    · have h1 : p.1 ∈ ps.properties.map Prod.fst := by
        rw [← hids]
        exact List.mem_map_of_mem Prod.fst hp
      rcases List.mem_map.mp h1 with ⟨q, hq, hqe⟩
      rw [← hqe]
      exact (hvals q hq).1
    · have h2 := (layout_offsets (8 + 8 * n) parts p (hdir_def ▸ hp)).2
      rw [← hblob_def] at h2
      omega
  have hdir2 : parseDir A n (48 + 8) = .ok dir := by
    rw [← hdirlen]
    exact parseDir_dirBytes dir A blob (48 + 8) hdirb d56
  have hnd : (dir.map Prod.fst).Nodup := by
    rw [hids]
    exact hnodup
  have hdec : decodeEntries A 48 ss .utf8 dir = .ok ps.properties := by
    rw [hdir_def]
    refine decodeEntries_serialize ps.properties .utf8 parts hser
      (fun q hq => (hvals q hq).2) A [] 48 (8 + 8 * n) ss ?_ ?_
    · rw [show (48 + (8 + 8 * n) : Nat) = 56 + 8 * n from by omega,
        drop_add, d56]
      have h8n : (8 * n : Nat) = (dirBytes dir).length := by
        rw [dirBytes_length, hdirlen]
      conv_lhs => rw [h8n]
      rw [List.drop_left, List.append_nil, hblob_def]
    · rw [← hblob_def, hss_def]
  rw [PropertySet.parse, hbom]
  simp only [hver, hosv2, hos2, hcls, hcnt, hfm, hso, hsize2, hn2, hdir2,
    hnd, hdec, reduceIte, ne_eq, if_true, if_false, not_true_eq_false,
    reduceCtorEq]

theorem renderNatF_fuel (fuel : Nat) :
    ∀ (fuel' n : Nat), n < fuel → n < fuel' →
      renderNatF fuel n = renderNatF fuel' n := by
  induction fuel with
  | zero => intro fuel' n h _; omega
  | succ f ih =>
    intro fuel' n h h'
    rcases fuel' with _ | f'
    · omega
    rw [renderNatF, renderNatF]
    by_cases hn : n < 10
    · rw [if_pos hn, if_pos hn]
    · rw [if_neg hn, if_neg hn, ih f' (n / 10) (by omega) (by omega)]

theorem digitVal_digitChar (d : Nat) (hd : d < 10) :
    digitVal (Nat.digitChar d) = some d := by
  interval_cases d <;> decide

theorem parseNatAux_append (acc : Nat) (xs ys : List Char) :
    parseNatAux acc (xs ++ ys) =
      (parseNatAux acc xs).bind fun a => parseNatAux a ys := by
  induction xs generalizing acc with
  | nil => rfl
  | cons c cs ih =>
    rw [List.cons_append, parseNatAux, parseNatAux]
    rcases hd : digitVal c with _ | d
    · rfl
    · rw [Option.some_bind, Option.some_bind, ih (acc * 10 + d)]

theorem parseNatAux_renderNat (n : Nat) :
    ∃ m, n < m ∧ ∀ acc, parseNatAux acc (renderNat n) = some (acc * m + n) := by
  induction n using Nat.strong_induction_on with
  | _ n ih =>
    by_cases hn : n < 10
    · refine ⟨10, by omega, fun acc => ?_⟩
      rw [renderNat, renderNatF, if_pos hn, parseNatAux,
        digitVal_digitChar n hn, Option.some_bind, parseNatAux]
    · rcases ih (n / 10) (by omega) with ⟨m, hm, hp⟩
      refine ⟨10 * m, by omega, fun acc => ?_⟩
      have hr : renderNat n = renderNat (n / 10) ++ [Nat.digitChar (n % 10)] := by
        rw [renderNat, renderNatF, if_neg hn, renderNat,
          renderNatF_fuel n (n / 10 + 1) (n / 10) (by omega) (by omega)]
      rw [hr, parseNatAux_append, hp acc, Option.some_bind, parseNatAux,
        digitVal_digitChar (n % 10) (by omega), Option.some_bind,
        parseNatAux]
      congr 1
      have := Nat.div_add_mod n 10
      ring_nf
      omega

theorem renderNat_ne_nil (n : Nat) : renderNat n ≠ [] := by
  rw [renderNat, renderNatF]
  by_cases hn : n < 10
  · rw [if_pos hn]; simp
  · rw [if_neg hn]; simp

theorem parseNatDigits_renderNat (n : Nat) :
    parseNatDigits (renderNat n) = some n := by
  rcases parseNatAux_renderNat n with ⟨m, _, hp⟩
  rcases hr : renderNat n with _ | ⟨c, cs⟩
  · exact absurd hr (renderNat_ne_nil n)
  · rw [parseNatDigits, ← hr, hp 0]
    simp

theorem renderNat_digits (n : Nat) :
    ∀ c ∈ renderNat n, 48 ≤ c.toNat ∧ c.toNat ≤ 57 := by
  induction n using Nat.strong_induction_on with
  | _ n ih =>
    intro c hc
    by_cases hn : n < 10
    · rw [renderNat, renderNatF, if_pos hn] at hc
      simp only [List.mem_singleton] at hc
      subst hc
      interval_cases n <;> decide
    · rw [renderNat, renderNatF, if_neg hn,
        renderNatF_fuel n (n / 10 + 1) (n / 10) (by omega) (by omega)] at hc
      rcases List.mem_append.mp hc with h | h
      · exact ih (n / 10) (by omega) c h
      · simp only [List.mem_singleton] at h
        subst h
        have h10 : n % 10 < 10 := by omega
        generalize hd : n % 10 = d at h10 ⊢
        interval_cases d <;> decide

theorem hexVal_hexChar (d : Nat) (hd : d < 16) :
    hexVal (hexChar d) = some d := by
  interval_cases d <;> decide

theorem renderHexM_mod (w : Nat) :
    ∀ n, renderHexM w n = renderHexM w (n % 16 ^ w) := by
  induction w with
  | zero => intro n; rfl
  | succ w ih =>
    intro n
    rw [renderHexM, renderHexM, pow_succ]
    have h1 : n % (16 ^ w * 16) / 16 ^ w % 16 = n / 16 ^ w % 16 := by
      rw [Nat.mod_mul_right_div_self, Nat.mod_mod_of_dvd _ (dvd_refl 16)]
    have h2 : n % (16 ^ w * 16) % 16 ^ w = n % 16 ^ w :=
      Nat.mod_mod_of_dvd n (dvd_mul_right (16 ^ w) 16)
    rw [h1, ih n, ih (n % (16 ^ w * 16)), h2]

theorem parseHexAux_renderHexM (w : Nat) :
    ∀ (n acc : Nat) (rest : List Char), n < 16 ^ w →
      parseHexAux acc w (renderHexM w n ++ rest) =
        some (acc * 16 ^ w + n, rest) := by
  induction w with
  | zero =>
    intro n acc rest h
    have hz : n = 0 := by simpa using h
    subst hz
    rw [renderHexM, List.nil_append, parseHexAux]
    norm_num
  | succ w ih =>
    intro n acc rest h
    have hpow : (16 : Nat) ^ (w + 1) = 16 ^ w * 16 := pow_succ 16 w
    have hdiv : n / 16 ^ w < 16 := by
      rw [Nat.div_lt_iff_lt_mul (Nat.pos_pow_of_pos w (by norm_num))]
      omega
    have hd : n / 16 ^ w % 16 = n / 16 ^ w := Nat.mod_eq_of_lt hdiv
    rw [renderHexM, List.cons_append, parseHexAux,
      hexVal_hexChar _ (Nat.mod_lt _ (by norm_num)), Option.some_bind,
      renderHexM_mod w n,
      ih (n % 16 ^ w) (acc * 16 + n / 16 ^ w % 16) rest
        (Nat.mod_lt _ (Nat.pos_pow_of_pos w (by norm_num)))]
    rw [Option.some_inj, Prod.mk.injEq]
    refine ⟨?_, rfl⟩
    rw [hd]
    have e1 := Nat.div_add_mod n (16 ^ w)
    rw [hpow]
    ring_nf
    ring_nf at e1
    omega

/-- Parsing the rendered form of a well-formed identifier recovers it. -/
theorem parseUuid_renderUuid (u : Uuid) (hwf : u.wf) :
    parseUuid (renderUuid u) = some u := by
  rcases u with ⟨a, b, c, d, e⟩
  obtain ⟨h1, h2, h3, h4, h5⟩ := hwf
  rw [renderUuid, parseUuid]
  dsimp only
  rw [if_pos rfl]
  rw [parseHexAux_renderHexM 8 a 0 _ (by norm_num at h1 ⊢; omega)]
  dsimp only
  rw [if_pos rfl]
  rw [parseHexAux_renderHexM 4 b 0 _ (by norm_num at h2 ⊢; omega)]
  dsimp only
  rw [if_pos rfl]
  rw [parseHexAux_renderHexM 4 c 0 _ (by norm_num at h3 ⊢; omega)]
  dsimp only
  rw [if_pos rfl]
  rw [parseHexAux_renderHexM 4 d 0 _ (by norm_num at h4 ⊢; omega)]
  dsimp only
  rw [if_pos rfl]
  rw [parseHexAux_renderHexM 12 e 0 _ (by norm_num at h5 ⊢; omega)]
  dsimp only
  rw [if_pos rfl, Option.some_inj, Uuid.mk.injEq]
  refine ⟨by omega, by omega, by omega, by omega, by omega⟩

theorem breakSemi_append_semi (a rest : List Char) (ha : ';' ∉ a) :
    breakSemi (a ++ ';' :: rest) = (a, some rest) := by
  induction a with
  | nil => rw [List.nil_append, breakSemi, if_pos rfl]
  | cons c cs ih =>
    rw [List.cons_append, breakSemi,
      if_neg (fun hc : c = ';' => ha (hc ▸ List.mem_cons_self c cs)),
      ih (fun hm => ha (List.mem_cons_of_mem c hm))]

theorem breakSemi_no_semi (a : List Char) (ha : ';' ∉ a) :
    breakSemi a = (a, none) := by
  induction a with
  | nil => rfl
  | cons c cs ih =>
    rw [breakSemi, if_neg (fun hc : c = ';' => ha (hc ▸ List.mem_cons_self c cs)),
      ih (fun hm => ha (List.mem_cons_of_mem c hm))]

theorem splitComma_append (g rest : List Char) (hg : ',' ∉ g) :
    splitComma (g ++ ',' :: rest) = g :: splitComma rest := by
  induction g with
  | nil =>
    rw [List.nil_append, splitComma, if_pos rfl]
  | cons c cs ih =>
    rw [List.cons_append, splitComma,
      if_neg (fun hc : c = ',' => hg (hc ▸ List.mem_cons_self c cs)),
      ih (fun hm => hg (List.mem_cons_of_mem c hm))]

theorem splitComma_no_comma (g : List Char) (hg : ',' ∉ g) :
    splitComma g = [g] := by
  induction g with
  | nil => rfl
  | cons c cs ih =>
    rw [splitComma, if_neg (fun hc : c = ',' => hg (hc ▸ List.mem_cons_self c cs)),
      ih (fun hm => hg (List.mem_cons_of_mem c hm))]

theorem renderNat_no_comma (n : Nat) : ',' ∉ renderNat n := by
  intro hm
  have := renderNat_digits n ',' hm
  revert this
  decide

theorem renderNat_no_semi (n : Nat) : ';' ∉ renderNat n := by
  intro hm
  have := renderNat_digits n ';' hm
  revert this
  decide

theorem parseLangCodes_renderCodes (ls : List Nat) :
    parseLangCodes (renderCodes ls) = ls := by
  induction ls with
  | nil => rfl
  | cons n tl ih =>
    rcases tl with _ | ⟨m, rest⟩
    · rw [renderCodes, parseLangCodes,
        splitComma_no_comma _ (renderNat_no_comma n), List.filterMap,
        parseNatDigits_renderNat n]
      rfl
    · rw [renderCodes, parseLangCodes,
        splitComma_append _ _ (renderNat_no_comma n), List.filterMap,
        parseNatDigits_renderNat n]
      rw [parseLangCodes] at ih
      rw [ih]

theorem renderCodes_no_semi (ls : List Nat) : ';' ∉ renderCodes ls := by
  induction ls with
  | nil => simp [renderCodes]
  | cons n tl ih =>
    rcases tl with _ | ⟨m, rest⟩
    · exact renderNat_no_semi n
    · rw [renderCodes]
      intro hm
      rcases List.mem_append.mp hm with h | h
      · exact renderNat_no_semi n h
      · rcases List.mem_cons.mp h with h | h
        · cases h
        · exact ih h

theorem templateArch_render_some (a : List Char) (ls : List Nat)
    (hsemi : ';' ∉ a) (hne : a ≠ []) :
    templateArch (renderTemplate (some a) ls) = some a := by
  rcases ls with _ | ⟨m, rest⟩
  · rw [renderTemplate, templateArch, breakSemi_no_semi a hsemi,
      if_neg hne]
  · rw [renderTemplate, templateArch, breakSemi_append_semi a _ hsemi,
      if_neg hne]

theorem templateArch_render_none (ls : List Nat) :
    templateArch (renderTemplate none ls) = none := by
  rcases ls with _ | ⟨m, rest⟩
  · rfl
  · rw [renderTemplate, templateArch, breakSemi, if_pos rfl, if_pos rfl]

theorem templateLangs_render (arch : Option (List Char)) (ls : List Nat)
    (hsemi : arch = none ∨ ∃ a, arch = some a ∧ ';' ∉ a) :
    templateLangs (renderTemplate arch ls) = ls := by
  rcases hsemi with rfl | ⟨a, rfl, ha⟩
  · rcases ls with _ | ⟨m, rest⟩
    · rfl
    · rw [renderTemplate, templateLangs, breakSemi, if_pos rfl]
      exact parseLangCodes_renderCodes (m :: rest)
  · rcases ls with _ | ⟨m, rest⟩
    · rw [renderTemplate, templateLangs, breakSemi_no_semi a ha]
    · rw [renderTemplate, templateLangs, breakSemi_append_semi a _ ha]
      exact parseLangCodes_renderCodes (m :: rest)

/-! ## Map-operation lemmas -/

theorem setPairs_mem (id : Nat) (v : PropertyValue)
    (l : List (Nat × PropertyValue)) :
    ∀ q ∈ setPairs id v l, q = (id, v) ∨ q ∈ l := by
  induction l with
  | nil =>
    intro q hq
    rw [setPairs] at hq
    simp at hq
    left
    exact hq
  | cons p tl ih =>
    intro q hq
    rw [setPairs] at hq
    by_cases hp : p.1 = id
    · rw [if_pos hp] at hq
      rcases List.mem_cons.mp hq with h | h
      · left; exact h
      · right; exact List.mem_cons_of_mem p h
    · rw [if_neg hp] at hq
      rcases List.mem_cons.mp hq with h | h
      · right; rw [h]; exact List.mem_cons_self p tl
      · rcases ih q h with h2 | h2
        · left; exact h2
        · right; exact List.mem_cons_of_mem p h2

theorem setPairs_nodup (id : Nat) (v : PropertyValue)
    (l : List (Nat × PropertyValue)) (h : (l.map Prod.fst).Nodup) :
    ((setPairs id v l).map Prod.fst).Nodup := by
  induction l with
  | nil => simp [setPairs]
  | cons p tl ih =>
    rw [List.map_cons, List.nodup_cons] at h
    rw [setPairs]
    by_cases hp : p.1 = id
    · rw [if_pos hp, List.map_cons, List.nodup_cons]
      exact ⟨hp ▸ h.1, h.2⟩
    · rw [if_neg hp, List.map_cons, List.nodup_cons]
      refine ⟨?_, ih h.2⟩
      intro hm
      rcases List.mem_map.mp hm with ⟨q, hq, hqe⟩
      rcases setPairs_mem id v tl q hq with rfl | h2
      · exact hp hqe.symm
      · exact h.1 (hqe ▸ List.mem_map_of_mem Prod.fst h2)

theorem setPairs_overwrite (id : Nat) (v w : PropertyValue)
    (l : List (Nat × PropertyValue)) :
    setPairs id v (setPairs id w l) = setPairs id v l := by
  induction l with
  | nil => simp [setPairs]
  | cons p tl ih =>
    by_cases hp : p.1 = id
    · rw [setPairs, if_pos hp, setPairs]
      dsimp only
      rw [if_pos rfl, setPairs, if_pos hp]
    · rw [setPairs, if_neg hp, setPairs, if_neg hp, ih, setPairs,
        if_neg hp]

theorem find?_setPairs_self (id : Nat) (v : PropertyValue)
    (l : List (Nat × PropertyValue)) :
    (setPairs id v l).find? (fun p => p.1 == id) = some (id, v) := by
  induction l with
  | nil => rw [setPairs, List.find?_cons_of_pos _ (by simp)]
  | cons p tl ih =>
    rw [setPairs]
    by_cases hp : p.1 = id
    · rw [if_pos hp, List.find?_cons_of_pos _ (by simp)]
    · rw [if_neg hp, List.find?_cons_of_neg _ (by simp [hp]), ih]

theorem find?_setPairs_ne (id id' : Nat) (v : PropertyValue)
    (l : List (Nat × PropertyValue)) (hne : id' ≠ id) :
    (setPairs id v l).find? (fun p => p.1 == id') =
      l.find? (fun p => p.1 == id') := by
  induction l with
  | nil =>
    rw [setPairs, List.find?_cons_of_neg _ (by simp [Ne.symm hne]),
      List.find?_nil]
  | cons p tl ih =>
    rw [setPairs]
    by_cases hp : p.1 = id
    · rw [if_pos hp]
      rcases hfind : (p.1 == id') with _ | _
      · rw [List.find?_cons, List.find?_cons, hfind]
        dsimp only
        rw [show ((id, v).1 == id') = false from by simp [Ne.symm hne]]
      · exfalso
        rw [beq_iff_eq] at hfind
        exact hne (by rw [← hfind]; exact hp)
    · rw [if_neg hp]
      rw [List.find?_cons, List.find?_cons]
      rcases hfind : (p.1 == id') with _ | _ <;> dsimp only
      exact ih

/-- `get` after `set` at the same id. -/
theorem PropertySet.get_set_self (ps : PropertySet) (id : Nat)
    (v : PropertyValue) : (ps.set id v).get id = some v := by
  rw [PropertySet.set, PropertySet.get]
  show ((setPairs id v ps.properties).find? _).map Prod.snd = _
  rw [find?_setPairs_self]
  rfl

/-- `get` after `set` at a different id. -/
theorem PropertySet.get_set_ne (ps : PropertySet) (id id' : Nat)
    (v : PropertyValue) (hne : id' ≠ id) :
    (ps.set id v).get id' = ps.get id' := by
  rw [PropertySet.set, PropertySet.get, PropertySet.get]
  show ((setPairs id v ps.properties).find? _).map Prod.snd = _
  rw [find?_setPairs_ne id id' v ps.properties hne]

theorem remove_absent (id : Nat) (l : List (Nat × PropertyValue))
    (h : l.find? (fun p => p.1 == id) = none) :
    l.filter (fun p => !(p.1 == id)) = l := by
  induction l with
  | nil => rfl
  | cons p tl ih =>
    rw [List.find?_cons] at h
    rcases hp : (p.1 == id) with _ | _
    · rw [hp] at h
      rw [List.filter_cons_of_pos (by simp [hp]), ih h]
    · rw [hp] at h
      cases h

/-- Removing an absent property id leaves the set unchanged. -/
theorem PropertySet.remove_of_get_none (ps : PropertySet) (id : Nat)
    (h : ps.get id = none) : ps.remove id = ps := by
  rw [PropertySet.get] at h
  rcases hfind : ps.properties.find? (fun p => p.1 == id) with _ | q
  · rw [PropertySet.remove, remove_absent id ps.properties hfind]
  · rw [hfind] at h
    cases h

/-! ## Well-formedness of parser output -/

theorem r16_lt (bs : List Nat) (n : Nat) (h : r16 bs = some n) :
    n < 65536 := by
  rcases bs with _ | ⟨a, _ | ⟨b, rest⟩⟩
  · cases h
  · cases h
  · rw [r16, Option.some_inj] at h
    omega

theorem r32_lt (bs : List Nat) (n : Nat) (h : r32 bs = some n) :
    n < 4294967296 := by
  rcases bs with _ | ⟨a, _ | ⟨b, _ | ⟨c, _ | ⟨d, rest⟩⟩⟩⟩
  · cases h
  · cases h
  · cases h
  · cases h
  · rw [r32, Option.some_inj] at h
    omega

theorem r64_lt (bs : List Nat) (n : Nat) (h : r64 bs = some n) :
    n < 18446744073709551616 := by
  rcases bs with _ | ⟨a, _ | ⟨b, _ | ⟨c, _ | ⟨d, _ | ⟨e, _ | ⟨f, _ |
    ⟨g, _ | ⟨k, rest⟩⟩⟩⟩⟩⟩⟩⟩
  · cases h
  · cases h
  · cases h
  · cases h
  · cases h
  · cases h
  · cases h
  · cases h
  · rw [r64, Option.some_inj] at h
    omega

theorem rBytes_ok (len : Nat) (bs l : List Nat)
    (h : rBytes len bs = some l) :
    l.length = len ∧ ∀ b ∈ l, b < 256 := by
  rw [rBytes] at h
  split_ifs at h with hle
  · rw [Option.some_inj] at h
    subst h
    constructor
    · rw [List.length_map, List.length_take]
      omega
    · intro b hb
      rcases List.mem_map.mp hb with ⟨x, _, hxe⟩
      omega

theorem utf8DecodeF_length (fuel : Nat) :
    ∀ (bs : List Nat) (cs : List Char), utf8DecodeF fuel bs = some cs →
      cs.length ≤ bs.length := by
  induction fuel with
  | zero =>
    intro bs cs h
    rcases bs with _ | ⟨b, bs⟩
    · rw [utf8DecodeF, Option.some_inj] at h
      subst h
      simp
    · cases h
  | succ f ih =>
    intro bs cs h
    rcases bs with _ | ⟨b, bs⟩
    · rw [utf8DecodeF, Option.some_inj] at h
      subst h
      simp
    · rw [utf8DecodeF.eq_3] at h
      rcases hstep : utf8DecodeStep b bs with _ | ⟨n, k⟩ <;>
        rw [hstep] at h
      · cases h
      dsimp only at h
      split_ifs at h with hv
      · rcases hmap : utf8DecodeF f (bs.drop k) with _ | cs' <;>
          rw [hmap] at h
        · cases h
        rw [Option.map_some', Option.some_inj] at h
        subst h
        have hlen := ih (bs.drop k) cs' hmap
        rw [List.length_drop] at hlen
        simp only [List.length_cons]
        omega

theorem cp1252Decode_length (bs : List Nat) (cs : List Char)
    (h : cp1252Decode bs = some cs) : cs.length = bs.length := by
  induction bs generalizing cs with
  | nil =>
    rw [cp1252Decode, Option.some_inj] at h
    subst h
    rfl
  | cons b bs ih =>
    rw [cp1252Decode] at h
    rcases hb : cp1252DecodeByte b with _ | c <;> rw [hb] at h
    · cases h
    rcases hbs : cp1252Decode bs with _ | tl <;> rw [hbs] at h
    · cases h
    rw [Option.some_inj] at h
    subst h
    rw [List.length_cons, List.length_cons, ih tl hbs]

theorem decodeChars_length (cp : CodePage) (bs : List Nat)
    (cs : List Char) (h : cp.decodeChars bs = some cs) :
    cs.length ≤ bs.length := by
  cases cp
  · exact utf8DecodeF_length bs.length bs cs h
  · rw [cp1252Decode_length bs cs h]

theorem parseValueAt_wf (all : List Nat) (cp : CodePage) (pos : Nat)
    (v : PropertyValue) (ilen : Nat)
    (hall : all.length < 1000000000)
    (h : parseValueAt all cp pos = .ok (v, ilen)) : v.wf := by
  rw [parseValueAt] at h
  rcases h0 : getU32 all pos with _ | tag <;> rw [h0] at h
  · cases h
  dsimp only at h
  split_ifs at h with h2 h3 h30 h64
  · rcases h1 : getU32 all (pos + 4) with _ | raw <;> rw [h1] at h
    · cases h
    rw [Except.ok.injEq, Prod.mk.injEq] at h
    rw [← h.1]
    show raw % 65536 < 65536
    omega
  · rcases h1 : getU32 all (pos + 4) with _ | raw <;> rw [h1] at h
    · cases h
    rw [Except.ok.injEq, Prod.mk.injEq] at h
    rw [← h.1]
    show raw < 4294967296
    exact r32_lt _ raw h1
  · rcases h1 : getU32 all (pos + 4) with _ | len <;> rw [h1] at h
    · cases h
    dsimp only at h
    rcases hbytes : getBytes all (pos + 8) len with _ | bytes <;>
      rw [hbytes] at h
    · cases h
    dsimp only at h
    split_ifs at h with hlen0
    rcases hdec : cp.decodeChars (bytes.take (len - 1)) with _ | cs <;>
      rw [hdec] at h
    · cases h
    rw [Except.ok.injEq, Prod.mk.injEq] at h
    rw [← h.1]
    show (String.mk cs).data.length < 1000000000
    have hb := rBytes_ok len _ bytes hbytes
    have hd := decodeChars_length cp _ cs hdec
    have htake : (bytes.take (len - 1)).length ≤ bytes.length := by
      rw [List.length_take]
      omega
    have hdroplen : (all.drop (pos + 8)).length ≤ all.length := by
      rw [List.length_drop]
      omega
    have hlen2 : len ≤ (all.drop (pos + 8)).length := by
      rw [getBytes, rBytes] at hbytes
      split_ifs at hbytes with hc
      · exact hc
    show cs.length < 1000000000
    omega
  · rcases h1 : getU64 all (pos + 4) with _ | t <;> rw [h1] at h
    · cases h
    rw [Except.ok.injEq, Prod.mk.injEq] at h
    rw [← h.1]
    show t < 18446744073709551616
    exact r64_lt _ t h1

theorem parseDir_bounds (all : List Nat) (n : Nat) :
    ∀ (pos : Nat) (dir : List (Nat × Nat)),
      parseDir all n pos = .ok dir →
      ∀ p ∈ dir, p.1 < 4294967296 ∧ p.2 < 4294967296 := by
  induction n with
  | zero =>
    intro pos dir h p hp
    rw [parseDir, Except.ok.injEq] at h
    subst h
    cases hp
  | succ n ih =>
    intro pos dir h p hp
    rw [parseDir] at h
    rcases h0 : getU32 all pos with _ | id <;> rw [h0] at h
    · cases h
    rcases h1 : getU32 all (pos + 4) with _ | off <;> rw [h1] at h
    · cases h
    dsimp only at h
    rcases h2 : parseDir all n (pos + 8) with e | rest <;> rw [h2] at h
    · cases h
    rw [Except.ok.injEq] at h
    subst h
    rcases List.mem_cons.mp hp with rfl | hmem
    · exact ⟨r32_lt _ id h0, r32_lt _ off h1⟩
    · exact ih (pos + 8) rest h2 p hmem

theorem decodeEntries_inv (all : List Nat) (base size : Nat)
    (entries : List (Nat × Nat)) :
    ∀ (cp : CodePage) (props : List (Nat × PropertyValue)),
      decodeEntries all base size cp entries = .ok props →
      props.map Prod.fst = entries.map Prod.fst ∧
      (all.length < 1000000000 → ∀ p ∈ props, PropertyValue.wf p.2) := by
  induction entries with
  | nil =>
    intro cp props h
    rw [decodeEntries, Except.ok.injEq] at h
    subst h
    exact ⟨rfl, fun _ p hp => absurd hp (List.not_mem_nil p)⟩
  | cons q tl ih =>
    rcases q with ⟨id, off⟩
    intro cp props h
    rw [decodeEntries] at h
    rcases h0 : parseValueAt all cp (base + off) with e | vl <;> rw [h0] at h
    · cases h
    rcases vl with ⟨v, ilen⟩
    dsimp only at h
    split_ifs at h with hb
    rcases h1 : decodeEntries all base size (nextCp cp id v) tl
      with e | rest <;> rw [h1] at h
    · cases h
    rw [Except.ok.injEq] at h
    subst h
    rcases ih (nextCp cp id v) rest h1 with ⟨hmap, hwf⟩
    refine ⟨by rw [List.map_cons, List.map_cons, hmap], ?_⟩
    intro hlen p hp
    rcases List.mem_cons.mp hp with rfl | hmem
    · exact parseValueAt_wf all cp (base + off) v ilen hlen h0
    · exact hwf hlen p hmem

/-- The output of the parser is a well-formed property set (for inputs
within the text-length budget). -/
theorem parse_wf (input : List Nat) (ps : PropertySet)
    (h : PropertySet.parse input = .ok ps)
    (hlen : input.length < 1000000000) : ps.wf := by
  rw [PropertySet.parse] at h
  rcases h0 : getU16 input 0 with _ | bom <;> rw [h0] at h
  · cases h
  dsimp only at h
  split_ifs at h with hbom
  rcases h1 : getU16 input 2 with _ | ver <;> rw [h1] at h
  · cases h
  dsimp only at h
  split_ifs at h with hver
  rcases h2 : getU16 input 4 with _ | osVersion <;> rw [h2] at h
  · rcases h3 : getU16 input 6 with _ | os <;> rw [h3] at h <;> cases h
  rcases h3 : getU16 input 6 with _ | os <;> rw [h3] at h
  · cases h
  rcases h4 : getBytes input 8 16 with _ | clsid <;> rw [h4] at h
  · cases h
  rcases h5 : getU32 input 24 with _ | cnt <;> rw [h5] at h
  · cases h
  dsimp only at h
  split_ifs at h with hcnt
  rcases h6 : getBytes input 28 16 with _ | fmtid <;> rw [h6] at h
  · rcases h7 : getU32 input 44 with _ | so <;> rw [h7] at h <;> cases h
  rcases h7 : getU32 input 44 with _ | so <;> rw [h7] at h
  · cases h
  dsimp only at h
  rcases h8 : getU32 input so with _ | size <;> rw [h8] at h
  · cases h
  rcases h9 : getU32 input (so + 4) with _ | n <;> rw [h9] at h
  · cases h
  dsimp only at h
  rcases h10 : parseDir input n (so + 8) with e | dir <;> rw [h10] at h
  · cases h
  dsimp only at h
  split_ifs at h with hnd
  rcases h11 : decodeEntries input so size .utf8 dir with e | props <;>
    rw [h11] at h
  · cases h
  rw [Except.ok.injEq] at h
  subst h
  rcases decodeEntries_inv input so size dir .utf8 props h11 with
    ⟨hmap, hwf⟩
  have hfm := rBytes_ok 16 _ fmtid h6
  refine ⟨?_, ?_, hfm.1, hfm.2, r16_lt _ os h3, r16_lt _ osVersion h2⟩
  · rw [hmap]
    exact hnd
  · intro p hp
    constructor
    · have : p.1 ∈ props.map Prod.fst := List.mem_map_of_mem Prod.fst hp
      rw [hmap] at this
      rcases List.mem_map.mp this with ⟨q, hq, hqe⟩
      rw [← hqe]
      exact (parseDir_bounds input n (so + 8) dir h10 q hq).1
    · exact hwf hlen p hp

/-- `SummaryInfo::read` succeeds exactly when the property set parses and
carries the fixed format identifier. -/
theorem SummaryInfo.read_ok (input : List Nat) (si : SummaryInfo)
    (h : SummaryInfo.read input = .ok si) :
    PropertySet.parse input = .ok si.properties ∧
      si.properties.fmtid = FMTID := by
  rw [SummaryInfo.read] at h
  rcases hp : PropertySet.parse input with e | ps <;> rw [hp] at h
  · cases h
  dsimp only at h
  split_ifs at h with hf
  rw [Except.ok.injEq] at h
  subst h
  rw [PropertySet.formatIdentifier] at hf
  exact ⟨rfl, not_not.mp (fun hne => hf hne)⟩

theorem PropertyValue.wf_of_num_text (v : PropertyValue)
    (h1 : v.wfNum) (h2 : v.textOk) : v.wf := by
  cases v <;> simp only [PropertyValue.wf, PropertyValue.wfNum,
    PropertyValue.textOk] at * <;> assumption

theorem SummaryInfo.baseWf_set (si : SummaryInfo) (id : Nat)
    (v : PropertyValue) (h : si.baseWf) (hid : id < 4294967296)
    (hv : v.wfNum) : SummaryInfo.baseWf ⟨si.properties.set id v⟩ := by
  obtain ⟨h1, h2, h3, h4, h5⟩ := h
  refine ⟨setPairs_nodup id v _ h1, ?_, h3, h4, h5⟩
  intro p hp
  rcases setPairs_mem id v _ p hp with rfl | hmem
  · exact ⟨hid, hv⟩
  · exact h2 p hmem

theorem SummaryInfo.baseWf_remove (si : SummaryInfo) (id : Nat)
    (h : si.baseWf) : SummaryInfo.baseWf ⟨si.properties.remove id⟩ := by
  obtain ⟨h1, h2, h3, h4, h5⟩ := h
  refine ⟨?_, ?_, h3, h4, h5⟩
  · exact ((List.filter_sublist _).map Prod.fst).nodup h1
  · intro p hp
    exact h2 p (List.mem_of_mem_filter hp)

theorem applyOp_baseWf (si : SummaryInfo) (op : SummaryOp)
    (h : si.baseWf) : (applyOp si op).baseWf := by
  cases op with
  | opSetCodepage cp =>
    refine SummaryInfo.baseWf_set si 1 _ h (by omega) ?_
    cases cp <;> decide
  | opSetTitle s => exact SummaryInfo.baseWf_set si 2 _ h (by omega) trivial
  | opSetSubject s => exact SummaryInfo.baseWf_set si 3 _ h (by omega) trivial
  | opSetAuthor s => exact SummaryInfo.baseWf_set si 4 _ h (by omega) trivial
  | opSetKeywords s => exact SummaryInfo.baseWf_set si 5 _ h (by omega) trivial
  | opSetComments s => exact SummaryInfo.baseWf_set si 6 _ h (by omega) trivial
  | opSetLastSavedBy s =>
    exact SummaryInfo.baseWf_set si 8 _ h (by omega) trivial
  | opSetCreatingApplication s =>
    exact SummaryInfo.baseWf_set si 16 _ h (by omega) trivial
  | opSetUuid u => exact SummaryInfo.baseWf_set si 9 _ h (by omega) trivial
  | opSetLastPrinted t =>
    exact SummaryInfo.baseWf_set si 10 _ h (by omega)
      (Nat.mod_lt _ (by norm_num))
  | opSetCreationTime t =>
    exact SummaryInfo.baseWf_set si 11 _ h (by omega)
      (Nat.mod_lt _ (by norm_num))
  | opSetLastSaveTime t =>
    exact SummaryInfo.baseWf_set si 12 _ h (by omega)
      (Nat.mod_lt _ (by norm_num))
  | opSetPageCount v =>
    exact SummaryInfo.baseWf_set si 13 _ h (by omega)
      (Nat.mod_lt _ (by norm_num))
  | opSetWordCount v =>
    exact SummaryInfo.baseWf_set si 14 _ h (by omega)
      (Nat.mod_lt _ (by norm_num))
  | opSetSecurity v =>
    rw [applyOp, SummaryInfo.set_security]
    split_ifs with hv
    · exact SummaryInfo.baseWf_set si 17 _ h (by omega) (by
        show v < 4294967296
        omega)
    · exact h
  | opSetArch a => exact SummaryInfo.baseWf_set si 7 _ h (by omega) trivial
  | opSetLanguages ls =>
    exact SummaryInfo.baseWf_set si 7 _ h (by omega) trivial
  | opClearField f => exact SummaryInfo.baseWf_remove si f.pid h
  | opClearArch =>
    rw [applyOp, SummaryInfo.clear_arch]
    rcases templateArch si.currentTemplate with _ | a
    · exact h
    rcases templateLangs si.currentTemplate with _ | ⟨c, cs⟩
    · exact SummaryInfo.baseWf_remove si 7 h
    · exact SummaryInfo.baseWf_set si 7 _ h (by omega) trivial
  | opClearLanguages =>
    rw [applyOp, SummaryInfo.clear_languages]
    rcases templateLangs si.currentTemplate with _ | ⟨c, cs⟩
    · exact h
    rcases templateArch si.currentTemplate with _ | a
    · exact SummaryInfo.baseWf_remove si 7 h
    · exact SummaryInfo.baseWf_set si 7 _ h (by omega) trivial

theorem applyOps_baseWf (ops : List SummaryOp) :
    ∀ (si : SummaryInfo), si.baseWf → (applyOps si ops).baseWf := by
  induction ops with
  | nil => intro si h; exact h
  | cons op ops ih =>
    intro si h
    exact ih (applyOp si op) (applyOp_baseWf si op h)

theorem new_baseWf : SummaryInfo.new.baseWf := by decide

theorem applyOp_fmtid (si : SummaryInfo) (op : SummaryOp) :
    (applyOp si op).properties.fmtid = si.properties.fmtid := by
  cases op <;> try rfl
  case opSetSecurity v =>
    rw [applyOp, SummaryInfo.set_security]
    split_ifs <;> rfl
  case opClearArch =>
    rw [applyOp, SummaryInfo.clear_arch]
    rcases templateArch si.currentTemplate with _ | a
    · rfl
    rcases templateLangs si.currentTemplate with _ | ⟨c, cs⟩ <;> rfl
  case opClearLanguages =>
    rw [applyOp, SummaryInfo.clear_languages]
    rcases templateLangs si.currentTemplate with _ | ⟨c, cs⟩
    · rfl
    rcases templateArch si.currentTemplate with _ | a <;> rfl

theorem applyOps_fmtid (ops : List SummaryOp) :
    ∀ (si : SummaryInfo),
      (applyOps si ops).properties.fmtid = si.properties.fmtid := by
  induction ops with
  | nil => intro si; rfl
  | cons op ops ih =>
    intro si
    rw [applyOps, ih (applyOp si op), applyOp_fmtid]

/-- Base invariant plus the text budget gives full well-formedness. -/
theorem SummaryInfo.wf_of (si : SummaryInfo) (hb : si.baseWf)
    (ht : si.textBounded) : si.properties.wf := by
  obtain ⟨h1, h2, h3, h4, h5⟩ := hb
  refine ⟨h1, ?_, by rw [h3]; rfl, by rw [h3]; decide, by omega, by omega⟩
  intro p hp
  exact ⟨(h2 p hp).1,
    PropertyValue.wf_of_num_text p.2 (h2 p hp).2 (ht p hp)⟩

/-- Reading back the written form of a well-formed summary state
recovers it. -/
theorem SummaryInfo.read_write (si : SummaryInfo) (out : List Nat)
    (hwf : si.properties.wf) (hfm : si.properties.fmtid = FMTID)
    (hw : si.write = .ok out) (hsz : out.length < 4294967344) :
    SummaryInfo.read out = .ok si := by
  have hp : PropertySet.parse out = .ok si.properties :=
    PropertySet.parse_write si.properties out hwf hw hsz
  rw [SummaryInfo.read, hp]
  dsimp only
  rw [if_neg (by rw [PropertySet.formatIdentifier, hfm]; exact fun hc => hc rfl)]

/-! ## Claim theorems -/

/-- C1: for every SummaryInfo reached from the empty state by an
arbitrary sequence of field setters and clearers (whose stored text fits
the format's 32-bit length budget), serializing with `write` and parsing
the produced bytes with `read` yields the original state again — hence
every logical-field getter observes equal values on both sides. -/
theorem C1_summary_roundtrip (ops : List SummaryOp) (out : List Nat)
    (hb : (applyOps SummaryInfo.new ops).textBounded)
    (hw : (applyOps SummaryInfo.new ops).write = .ok out)
    (hsz : out.length < 4294967344) :
    SummaryInfo.read out = .ok (applyOps SummaryInfo.new ops) := by
  have hbase := applyOps_baseWf ops SummaryInfo.new new_baseWf
  refine SummaryInfo.read_write _ out (SummaryInfo.wf_of _ hbase hb)
    ?_ hw hsz
  rw [applyOps_fmtid]
  rfl

set_option maxRecDepth 1000000 in
theorem C1_summary_roundtrip_witness :
    c1state.textBounded ∧ SummaryInfo.write c1state = .ok c1out ∧
      c1out.length < 4294967344 ∧
      SummaryInfo.read c1out = .ok c1state :=
  ⟨by decide, by decide, by decide,
    C1_summary_roundtrip c1ops c1out (by decide) (by decide) (by decide)⟩

/-- C2: `write` first completes the whole header + directory + value
blob in memory and only then hands that one buffer to the sink, and it is
a pure function of the state: two successive writes with no intervening
mutation append byte-identical buffers. -/
theorem C2_write_pure_buffered (si : SummaryInfo) (sink buf : List Nat)
    (hw : si.write = .ok buf) :
    si.writeToSink sink = .ok (sink ++ buf) ∧
      si.writeToSink (sink ++ buf) = .ok ((sink ++ buf) ++ buf) := by
  rw [SummaryInfo.writeToSink, SummaryInfo.writeToSink, hw]
  exact ⟨rfl, rfl⟩

set_option maxRecDepth 1000000 in
theorem C2_write_pure_buffered_witness :
    SummaryInfo.writeToSink SummaryInfo.new [] = .ok ([] ++ c2buf) ∧
      SummaryInfo.writeToSink SummaryInfo.new ([] ++ c2buf) =
        .ok (([] ++ c2buf) ++ c2buf) :=
  C2_write_pure_buffered SummaryInfo.new [] c2buf (by decide)

/-- C3: `SummaryInfo::read` fails with `InvalidFormat` ("wrong format
identifier") whenever the parsed format identifier differs from `FMTID`,
and every successful read carries exactly `FMTID`. -/
theorem C3_format_guard :
    (∀ (input : List Nat) (ps : PropertySet),
        PropertySet.parse input = .ok ps →
        ps.formatIdentifier ≠ FMTID →
        SummaryInfo.read input =
          .error (.invalidFormat "Property set has wrong format identifier")) ∧
    (∀ (input : List Nat) (si : SummaryInfo),
        SummaryInfo.read input = .ok si →
        si.properties.formatIdentifier = FMTID) := by
  constructor
  · intro input ps hp hne
    rw [SummaryInfo.read, hp]
    dsimp only
    rw [if_pos hne]
  · intro input si h
    rw [PropertySet.formatIdentifier]
    exact (SummaryInfo.read_ok input si h).2

set_option maxRecDepth 1000000 in
theorem C3_format_guard_witness :
    SummaryInfo.read c3bytes =
      .error (.invalidFormat "Property set has wrong format identifier") :=
  C3_format_guard.1 c3bytes c3ps (by decide) (by decide)

/-- C8: the 17 logical fields map to the fixed property ids 1–17 in the
documented order. -/
theorem C8_field_pids :
    SummaryInfoField.pid .codepage = 1 ∧
    SummaryInfoField.pid .title = 2 ∧
    SummaryInfoField.pid .subject = 3 ∧
    SummaryInfoField.pid .author = 4 ∧
    SummaryInfoField.pid .keywords = 5 ∧
    SummaryInfoField.pid .comments = 6 ∧
    SummaryInfoField.pid .template = 7 ∧
    SummaryInfoField.pid .lastSavedBy = 8 ∧
    SummaryInfoField.pid .revisionNumber = 9 ∧
    SummaryInfoField.pid .lastPrinted = 10 ∧
    SummaryInfoField.pid .createDateTime = 11 ∧
    SummaryInfoField.pid .lastSaveDateTime = 12 ∧
    SummaryInfoField.pid .pageCount = 13 ∧
    SummaryInfoField.pid .wordCount = 14 ∧
    SummaryInfoField.pid .characterCount = 15 ∧
    SummaryInfoField.pid .creatingApplication = 16 ∧
    SummaryInfoField.pid .security = 17 := by
  decide

/-- C9: the fixed format-identifier constant is exactly the documented
summary-information GUID `F29F85E0-4FF9-1068-AB91-08002B27B3D9` encoded
with its first three fields little-endian and its last two big-endian. -/
theorem C9_fmtid_guid :
    FMTID = guidMixedEndian 0xF29F85E0 0x4FF9 0x1068 0xAB91
      0x08002B27B3D9 := by
  decide

/-- C10: the format identifier of every reachable SummaryInfo state —
produced by `new()` or accepted by `read()`, then mutated by any setters
and clearers — equals the constant `FMTID`; no mutation step changes it
(and `write` takes the state immutably). -/
theorem C10_fmtid_invariant :
    (∀ (si : SummaryInfo) (op : SummaryOp),
        (applyOp si op).properties.fmtid = si.properties.fmtid) ∧
    (∀ ops : List SummaryOp,
        (applyOps SummaryInfo.new ops).properties.fmtid = FMTID) ∧
    (∀ (input : List Nat) (si : SummaryInfo) (ops : List SummaryOp),
        SummaryInfo.read input = .ok si →
        (applyOps si ops).properties.fmtid = FMTID) := by
  refine ⟨applyOp_fmtid, ?_, ?_⟩
  · intro ops
    rw [applyOps_fmtid]
    rfl
  · intro input si ops h
    rw [applyOps_fmtid]
    exact (SummaryInfo.read_ok input si h).2

set_option maxRecDepth 1000000 in
theorem C10_fmtid_invariant_witness :
    (applyOps SummaryInfo.new
        [.opSetTitle "T", .opClearField .title]).properties.fmtid =
      FMTID ∧
    (applyOps SummaryInfo.new []).properties.fmtid = FMTID :=
  ⟨C10_fmtid_invariant.2.2 c10bytes SummaryInfo.new
      [.opSetTitle "T", .opClearField .title] (by decide),
    C10_fmtid_invariant.2.1 []⟩

theorem currentTemplate_set7 (si : SummaryInfo) (s : String) :
    (SummaryInfo.mk (si.properties.set 7 (.lpstr s))).currentTemplate =
      s.data := by
  rw [SummaryInfo.currentTemplate]
  rw [show (SummaryInfo.mk (si.properties.set 7 (.lpstr s))).properties =
    si.properties.set 7 (.lpstr s) from rfl]
  rw [PropertySet.get_set_self]

theorem PropertySet.set_set (ps : PropertySet) (id : Nat)
    (v w : PropertyValue) : (ps.set id w).set id v = ps.set id v := by
  rw [PropertySet.set, PropertySet.set, PropertySet.set]
  rw [show ({ ps with properties := setPairs id w ps.properties } :
    PropertySet).properties = setPairs id w ps.properties from rfl]
  rw [setPairs_overwrite]

theorem Architecture.token_clean (a : Architecture) :
    ';' ∉ a.token.data ∧ a.token.data ≠ [] := by
  cases a <;> exact ⟨by decide, by decide⟩

/-- C4: starting from the empty state, setting languages then
architecture yields the same state — and in particular the same stored
template text (property 7) — as setting them in the other order. -/
theorem C4_template_commutative (a : Architecture) (ls : List Language) :
    (SummaryInfo.new.set_languages ls).set_arch a =
      (SummaryInfo.new.set_arch a).set_languages ls ∧
    ((SummaryInfo.new.set_languages ls).set_arch a).getStrProp 7 =
      ((SummaryInfo.new.set_arch a).set_languages ls).getStrProp 7 := by
  have htok := Architecture.token_clean a
  have hL1 : templateLangs
      ((SummaryInfo.new.set_languages ls).currentTemplate) =
      ls.map Language.code := by
    rw [SummaryInfo.set_languages, currentTemplate_set7]
    show templateLangs (renderTemplate
      (templateArch SummaryInfo.new.currentTemplate)
      (ls.map Language.code)) = ls.map Language.code
    exact templateLangs_render _ _ (Or.inl rfl)
  have hA2 : templateArch ((SummaryInfo.new.set_arch a).currentTemplate) =
      some a.token.data := by
    rw [SummaryInfo.set_arch, currentTemplate_set7]
    show templateArch (renderTemplate (some a.token.data)
      (templateLangs SummaryInfo.new.currentTemplate)) =
      some a.token.data
    exact templateArch_render_some _ _ htok.1 htok.2
  have lhs_eq : (SummaryInfo.new.set_languages ls).set_arch a =
      SummaryInfo.mk (SummaryInfo.new.properties.set 7 (.lpstr (String.mk
        (renderTemplate (some a.token.data) (ls.map Language.code))))) := by
    rw [show (SummaryInfo.new.set_languages ls).set_arch a =
      SummaryInfo.mk ((SummaryInfo.new.set_languages ls).properties.set 7
        (.lpstr (String.mk (renderTemplate (some a.token.data)
          (templateLangs
            ((SummaryInfo.new.set_languages ls).currentTemplate))))))
      from rfl]
    rw [hL1]
    rw [show (SummaryInfo.new.set_languages ls).properties =
      SummaryInfo.new.properties.set 7 (.lpstr (String.mk
        (renderTemplate (templateArch SummaryInfo.new.currentTemplate)
          (ls.map Language.code)))) from rfl]
    rw [PropertySet.set_set]
  have rhs_eq : (SummaryInfo.new.set_arch a).set_languages ls =
      SummaryInfo.mk (SummaryInfo.new.properties.set 7 (.lpstr (String.mk
        (renderTemplate (some a.token.data) (ls.map Language.code))))) := by
    rw [show (SummaryInfo.new.set_arch a).set_languages ls =
      SummaryInfo.mk ((SummaryInfo.new.set_arch a).properties.set 7
        (.lpstr (String.mk (renderTemplate
          (templateArch ((SummaryInfo.new.set_arch a).currentTemplate))
          (ls.map Language.code)))))
      from rfl]
    rw [hA2]
    rw [show (SummaryInfo.new.set_arch a).properties =
      SummaryInfo.new.properties.set 7 (.lpstr (String.mk
        (renderTemplate (some a.token.data)
          (templateLangs SummaryInfo.new.currentTemplate)))) from rfl]
    rw [PropertySet.set_set]
  exact ⟨lhs_eq.trans rhs_eq.symm, by rw [lhs_eq, rhs_eq]⟩

theorem C4_template_commutative_witness :
    (SummaryInfo.new.set_languages [⟨1033⟩]).set_arch .intel =
      (SummaryInfo.new.set_arch .intel).set_languages [⟨1033⟩] ∧
    ((SummaryInfo.new.set_languages [⟨1033⟩]).set_arch .intel).getStrProp
        7 =
      ((SummaryInfo.new.set_arch .intel).set_languages
        [⟨1033⟩]).getStrProp 7 :=
  C4_template_commutative .intel [⟨1033⟩]

/-- C5: any 16-bit word-count value — reserved/undefined bits included —
read from a property set survives a write verbatim: the rewritten bytes
read back to the same state, still holding the exact raw value. -/
theorem C5_word_count_bits (b out : List Nat) (si : SummaryInfo) (v : Nat)
    (hblen : b.length < 1000000000)
    (hr : SummaryInfo.read b = .ok si)
    (hv : si.properties.get 14 = some (.i2 v))
    (hw : si.write = .ok out)
    (hsz : out.length < 4294967344) :
    SummaryInfo.read out = .ok si ∧
      si.properties.get 14 = some (.i2 v) := by
  rcases SummaryInfo.read_ok b si hr with ⟨hp, hfm⟩
  have hwf := parse_wf b si.properties hp hblen
  exact ⟨SummaryInfo.read_write si out hwf hfm hw hsz, hv⟩

set_option maxRecDepth 1000000 in
theorem C5_word_count_bits_witness :
    SummaryInfo.read c5bytes = .ok c5state ∧
      c5state.properties.get 14 = some (.i2 48879) :=
  C5_word_count_bits c5bytes c5bytes c5state 48879 (by decide) (by decide)
    (by decide) (by decide) (by decide)

theorem mem_renderHexM (w : Nat) :
    ∀ (n : Nat) (c : Char), c ∈ renderHexM w n →
      ∃ d, d < 16 ∧ c = hexChar d := by
  induction w with
  | zero => intro n c hc; cases hc
  | succ w ih =>
    intro n c hc
    rw [renderHexM] at hc
    rcases List.mem_cons.mp hc with rfl | hmem
    · exact ⟨n / 16 ^ w % 16, Nat.mod_lt _ (by norm_num), rfl⟩
    · exact ih n c hmem

theorem hexChar_not_lower (d : Nat) (hd : d < 16) :
    (hexChar d).isLower = false := by
  interval_cases d <;> decide

theorem renderUuid_not_lower (u : Uuid) :
    ∀ c ∈ (renderUuid u).data, c.isLower = false := by
  intro c hc
  rw [show (renderUuid u).data = lbrace :: (renderHexM 8 u.timeLow ++
    '-' :: (renderHexM 4 u.timeMid ++ '-' :: (renderHexM 4 u.timeHi ++
      '-' :: (renderHexM 4 u.clockSeq ++ '-' ::
        (renderHexM 12 u.node ++ [rbrace]))))) from rfl] at hc
  simp only [List.mem_cons, List.mem_append, List.mem_singleton] at hc
  rcases hc with rfl | hc
  · decide
  rcases hc with hc | hc
  · rcases mem_renderHexM 8 u.timeLow c hc with ⟨d, hd, rfl⟩
    exact hexChar_not_lower d hd
  rcases hc with rfl | hc
  · decide
  rcases hc with hc | hc
  · rcases mem_renderHexM 4 u.timeMid c hc with ⟨d, hd, rfl⟩
    exact hexChar_not_lower d hd
  rcases hc with rfl | hc
  · decide
  rcases hc with hc | hc
  · rcases mem_renderHexM 4 u.timeHi c hc with ⟨d, hd, rfl⟩
    exact hexChar_not_lower d hd
  rcases hc with rfl | hc
  · decide
  rcases hc with hc | hc
  · rcases mem_renderHexM 4 u.clockSeq c hc with ⟨d, hd, rfl⟩
    exact hexChar_not_lower d hd
  rcases hc with rfl | hc
  · decide
  rcases hc with hc | hc
  · rcases mem_renderHexM 12 u.node c hc with ⟨d, hd, rfl⟩
    exact hexChar_not_lower d hd
  · rcases hc with rfl | hnil
    · decide
    · cases hnil

/-- C6: for a valid identifier, setting the revision id then reading it
back returns the identifier; the stored property is exactly the braced
hexadecimal text rendering, which contains no lower-case letter; and a
stored text that does not parse as a braced identifier makes the getter
return absent rather than an error. -/
theorem C6_revision_id (si : SummaryInfo) (u : Uuid) (hu : u.wf) :
    (si.set_uuid u).uuid = some u ∧
    (si.set_uuid u).getStrProp 9 = some (renderUuid u) ∧
    (∀ c ∈ (renderUuid u).data, c.isLower = false) ∧
    (∀ (si' : SummaryInfo) (str : String), si'.getStrProp 9 = some str →
      parseUuid str = none → si'.uuid = none) := by
  have hg : (si.set_uuid u).getStrProp 9 = some (renderUuid u) := by
    rw [SummaryInfo.set_uuid, SummaryInfo.setStrProp,
      SummaryInfo.getStrProp]
    rw [show (SummaryInfo.mk (si.properties.set 9
      (.lpstr (renderUuid u)))).properties =
      si.properties.set 9 (.lpstr (renderUuid u)) from rfl]
    rw [PropertySet.get_set_self]
  refine ⟨?_, hg, renderUuid_not_lower u, ?_⟩
  · rw [SummaryInfo.uuid, hg]
    exact parseUuid_renderUuid u hu
  · intro si' str h1 h2
    rw [SummaryInfo.uuid, h1]
    exact h2

set_option maxRecDepth 1000000 in
theorem C6_revision_id_witness :
    Uuid.wf ⟨42, 12, 5, 3075, 10133099161609⟩ ∧
      (SummaryInfo.new.set_uuid
        ⟨42, 12, 5, 3075, 10133099161609⟩).uuid =
        some ⟨42, 12, 5, 3075, 10133099161609⟩ :=
  ⟨by decide,
    (C6_revision_id SummaryInfo.new ⟨42, 12, 5, 3075, 10133099161609⟩
      (by decide)).1⟩

/-- C7: getters never fail — they observe absent or malformed stored
data as an absent optional value — and clearing an already-absent field
(including the composite template components) leaves the state
unchanged. -/
theorem C7_getters_clearers (si : SummaryInfo) (f : SummaryInfoField) :
    (si.properties.get f.pid = none →
      fieldGetterNone si f ∧ si.clearField f = si) ∧
    (∀ v, si.properties.get f.pid = some v → wrongShape f v →
      fieldGetterNone si f) ∧
    (si.arch = none → si.clear_arch = si) ∧
    (si.languages = [] → si.clear_languages = si) := by
  refine ⟨?_, ?_, ?_, ?_⟩
  · intro h
    constructor
    · cases f <;> simp only [SummaryInfoField.pid] at h <;>
        (simp only [fieldGetterNone, SummaryInfo.codepage,
          SummaryInfo.title, SummaryInfo.subject, SummaryInfo.author,
          SummaryInfo.keywords, SummaryInfo.comments, SummaryInfo.arch,
          SummaryInfo.languages, SummaryInfo.currentTemplate,
          SummaryInfo.last_saved_by, SummaryInfo.uuid,
          SummaryInfo.last_printed, SummaryInfo.creation_time,
          SummaryInfo.last_save_time, SummaryInfo.page_count,
          SummaryInfo.word_count, SummaryInfo.creating_application,
          SummaryInfo.security, SummaryInfo.getStrProp,
          SummaryInfo.getTimeProp, h]
         try trivial)
    · cases f <;> simp only [SummaryInfoField.pid] at h <;>
        rw [SummaryInfo.clearField] <;>
        simp only [SummaryInfoField.pid] <;>
        rw [SummaryInfo.clearProp, PropertySet.remove_of_get_none _ _ h]
  · intro v h hw
    cases f <;> simp only [SummaryInfoField.pid] at h <;> cases v <;>
      first
        | exact (hw : False).elim
        | trivial
        | (simp only [fieldGetterNone, SummaryInfo.codepage,
            SummaryInfo.title, SummaryInfo.subject, SummaryInfo.author,
            SummaryInfo.keywords, SummaryInfo.comments, SummaryInfo.arch,
            SummaryInfo.languages, SummaryInfo.currentTemplate,
            SummaryInfo.last_saved_by, SummaryInfo.uuid,
            SummaryInfo.last_printed, SummaryInfo.creation_time,
            SummaryInfo.last_save_time, SummaryInfo.page_count,
            SummaryInfo.word_count, SummaryInfo.creating_application,
            SummaryInfo.security, SummaryInfo.getStrProp,
            SummaryInfo.getTimeProp, h] <;>
           first
             | rfl
             | exact ⟨rfl, rfl⟩
             | exact (hw : CodePage.fromId _ = none)
             | exact (hw : parseUuid _ = none))
  · intro h
    rw [SummaryInfo.clear_arch]
    rw [show templateArch si.currentTemplate = none from
      Option.map_eq_none'.mp h]
  · intro h
    rw [SummaryInfo.clear_languages]
    have hl : templateLangs si.currentTemplate = [] := by
      rw [SummaryInfo.languages] at h
      exact List.map_eq_nil_iff.mp h
    rw [hl]

theorem C7_getters_clearers_witness :
    (SummaryInfo.new.properties.get 2 = none →
      fieldGetterNone SummaryInfo.new .title ∧
        SummaryInfo.new.clearField .title = SummaryInfo.new) ∧
    (∀ v, SummaryInfo.new.properties.get 2 = some v →
      wrongShape .title v → fieldGetterNone SummaryInfo.new .title) ∧
    (SummaryInfo.new.arch = none →
      SummaryInfo.new.clear_arch = SummaryInfo.new) ∧
    (SummaryInfo.new.languages = [] →
      SummaryInfo.new.clear_languages = SummaryInfo.new) ∧
    SummaryInfo.new.properties.get 2 = none ∧
    SummaryInfo.new.title = none ∧
    SummaryInfo.new.clearField .title = SummaryInfo.new :=
  ⟨(C7_getters_clearers SummaryInfo.new .title).1,
    (C7_getters_clearers SummaryInfo.new .title).2.1,
    (C7_getters_clearers SummaryInfo.new .title).2.2.1,
    (C7_getters_clearers SummaryInfo.new .title).2.2.2,
    by decide,
    ((C7_getters_clearers SummaryInfo.new .title).1 (by decide)).1,
    ((C7_getters_clearers SummaryInfo.new .title).1 (by decide)).2⟩

end RustMsi

